import Mathlib

/-!
Verification of the TiFlash configuration-synthesis module of
`pkg/manager/member/tiflash_util.go` (tidb-operator).

The configuration documents manipulated by the Go code are nested
`map[string]interface{}` trees accessed exclusively through full dotted key
paths (`Get`, `Set`, `SetIfNil`, `Del`).  We embed a document as an
association list from the dotted path to a typed value; `Set` overwrites in
place, `SetIfNil` appends only when the key is absent, `Del` removes every
entry with the key.  Since Go maps are unordered and serialization is
canonical, list equality is a sound (strictly stronger) notion of document
identity.
-/

set_option autoImplicit false

namespace TiFlash

/-- A configuration value: string, 64-bit integer, floating-point literal
(kept as an exact rational, the literals are inert data), boolean, or a
list of strings.  These are the only value shapes the module writes. -/
inductive Value where
  | str (s : String)
  | int (n : Int)
  | rat (q : ℚ)
  | bool (b : Bool)
  | strList (l : List String)
  deriving DecidableEq, Repr

/-- A configuration document: an association list from a dotted key path to
a value, embedding the flat view of the Go nested string map. -/
abbrev Doc := List (String × Value)

/-- `Get`: first value stored at key `k`, or `none`. -/
def Doc.get : Doc → String → Option Value
  | [], _ => none
  | (k0, v0) :: d, k => if k = k0 then some v0 else Doc.get d k

/-- `Set`: unconditional write; overwrites the first occurrence in place,
appends at the end when the key is absent. -/
def Doc.set : Doc → String → Value → Doc
  | [], k, v => [(k, v)]
  | (k0, v0) :: d, k, v => if k0 = k then (k, v) :: d else (k0, v0) :: Doc.set d k v

/-- `SetIfNil`: writes only when the key is currently absent. -/
def Doc.setIfNil (d : Doc) (k : String) (v : Value) : Doc :=
  match Doc.get d k with
  | some _ => d
  | none => d ++ [(k, v)]

/-- `Del`: removes every entry stored at key `k`. -/
def Doc.del (d : Doc) (k : String) : Doc :=
  d.filter (fun e => e.1 ≠ k)

@[simp] theorem Doc.get_nil (k : String) : Doc.get [] k = none := rfl

theorem Doc.get_append (d e : Doc) (k : String) :
    Doc.get (d ++ e) k = (Doc.get d k).or (Doc.get e k) := by
  induction d with
  | nil => simp [Doc.get]
  | cons hd tl ih =>
    obtain ⟨k0, v0⟩ := hd
    by_cases h : k = k0 <;> simp [Doc.get, h, ih]

theorem Doc.get_set (d : Doc) (k : String) (v : Value) (k' : String) :
    Doc.get (Doc.set d k v) k' = if k' = k then some v else Doc.get d k' := by
  induction d with
  | nil =>
    by_cases h : k' = k <;> simp [Doc.set, Doc.get, h]
  | cons hd tl ih =>
    obtain ⟨k0, v0⟩ := hd
    by_cases h0 : k0 = k
    · subst h0
      by_cases h : k' = k0 <;> simp [Doc.set, Doc.get, h]
    · by_cases h : k' = k0
      · have hk : ¬ k' = k := fun hh => h0 (h.symm.trans hh)
        simp [Doc.set, Doc.get, h0, h, hk]
      · simp [Doc.set, Doc.get, h0, h, ih]

theorem Doc.del_cons (k0 : String) (v0 : Value) (tl : Doc) (k : String) :
    Doc.del ((k0, v0) :: tl) k =
      if k0 = k then Doc.del tl k else (k0, v0) :: Doc.del tl k := by
  by_cases h : k0 = k <;> simp [Doc.del, List.filter_cons, h]

theorem Doc.get_del (d : Doc) (k k' : String) :
    Doc.get (Doc.del d k) k' = if k' = k then none else Doc.get d k' := by
  induction d with
  | nil => by_cases h : k' = k <;> simp [Doc.del, h]
  | cons hd tl ih =>
    obtain ⟨k0, v0⟩ := hd
    rw [Doc.del_cons]
    by_cases h0 : k0 = k
    · subst h0
      rw [if_pos rfl, ih]
      by_cases h : k' = k0 <;> simp [Doc.get, h]
    · rw [if_neg h0]
      by_cases h : k' = k0
      · have hk : ¬ k' = k := fun hh => h0 (h.symm.trans hh)
        simp [Doc.get, h, hk, h0]
      · simp [Doc.get, h, ih]

theorem Doc.get_setIfNil (d : Doc) (k : String) (v : Value) (k' : String) :
    Doc.get (Doc.setIfNil d k v) k' =
      if k' = k then (Doc.get d k).or (some v) else Doc.get d k' := by
  unfold Doc.setIfNil
  cases hk : Doc.get d k with
  | some w =>
    by_cases h : k' = k <;> simp [h, hk]
  | none =>
    by_cases h : k' = k <;>
      simp [h, hk, Doc.get_append, Doc.get]

theorem Doc.setIfNil_of_isSome {d : Doc} {k : String} (v : Value)
    (h : (Doc.get d k).isSome) : Doc.setIfNil d k v = d := by
  unfold Doc.setIfNil
  cases hk : Doc.get d k with
  | some w => rfl
  | none => rw [hk] at h; simp at h

theorem Doc.setIfNil_of_none {d : Doc} {k : String} (v : Value)
    (h : Doc.get d k = none) : Doc.setIfNil d k v = d ++ [(k, v)] := by
  unfold Doc.setIfNil
  rw [h]

theorem Doc.del_of_get_none {d : Doc} {k : String} (h : Doc.get d k = none) :
    Doc.del d k = d := by
  induction d with
  | nil => rfl
  | cons hd tl ih =>
    obtain ⟨k0, v0⟩ := hd
    have hne : ¬ k = k0 := by
      intro hh
      rw [Doc.get, if_pos hh] at h
      exact Option.noConfusion h
    have htl : Doc.get tl k = none := by
      rw [Doc.get, if_neg hne] at h
      exact h
    have hk0 : ¬ k0 = k := fun hh => hne hh.symm
    rw [Doc.del_cons, if_neg hk0, ih htl]

theorem Doc.del_append (d e : Doc) (k : String) :
    Doc.del (d ++ e) k = Doc.del d k ++ Doc.del e k := by
  simp [Doc.del, List.filter_append]

theorem Doc.set_of_get_eq {d : Doc} {k : String} {v : Value}
    (h : Doc.get d k = some v) : Doc.set d k v = d := by
  induction d with
  | nil => simp [Doc.get] at h
  | cons hd tl ih =>
    obtain ⟨k0, v0⟩ := hd
    by_cases h0 : k0 = k
    · have hkk : k = k0 := h0.symm
      have : v0 = v := by
        rw [Doc.get, if_pos hkk] at h
        exact Option.some.inj h
      subst this
      simp [Doc.set, h0]
    · have hk : ¬ k = k0 := fun hh => h0 hh.symm
      have htl : Doc.get tl k = some v := by
        rw [Doc.get, if_neg hk] at h
        exact h
      simp [Doc.set, h0, ih htl]

/-!  Primitive document transformations.  Each synthesizer in the source is
a straight-line cascade of `Set` / `SetIfNil` / `Del` calls plus two guarded
writes of the form `if Get(k1) == nil && Get(k2) == nil { Set/SetIfNil(k2, v) }`;
we package a cascade as a list of operations folded over the document. -/

inductive Op where
  | set (k : String) (v : Value)
  | setIfNil (k : String) (v : Value)
  | del (k : String)
  | guard2 (k1 k2 : String) (v : Value)
  deriving Repr

def applyOp (d : Doc) : Op → Doc
  | .set k v => Doc.set d k v
  | .setIfNil k v => Doc.setIfNil d k v
  | .del k => Doc.del d k
  | .guard2 k1 k2 v =>
      if Doc.get d k1 = none ∧ Doc.get d k2 = none then Doc.set d k2 v else d

def applyOps (ops : List Op) (d : Doc) : Doc :=
  ops.foldl applyOp d

@[simp] theorem applyOps_nil (d : Doc) : applyOps [] d = d := rfl

@[simp] theorem applyOps_cons (op : Op) (ops : List Op) (d : Doc) :
    applyOps (op :: ops) d = applyOps ops (applyOp d op) := rfl

theorem applyOps_append (l1 l2 : List Op) (d : Doc) :
    applyOps (l1 ++ l2) d = applyOps l2 (applyOps l1 d) := by
  simp [applyOps, List.foldl_append]

/-- Keys an operation can remove. -/
def Op.delKeys : Op → List String
  | .del k => [k]
  | _ => []

/-- Keys an operation can write (by any means). -/
def Op.writeKeys : Op → List String
  | .set k _ => [k]
  | .setIfNil k _ => [k]
  | .del k => [k]
  | .guard2 _ k2 _ => [k2]

/-- Keys whose existing value an operation can change: only an unconditional
`Set` or a `Del` can do so (`SetIfNil` and the guards only write absent keys). -/
def Op.overwriteKeys : Op → List String
  | .set k _ => [k]
  | .del k => [k]
  | _ => []

/-- Keys some `SetIfNil` in the list writes. -/
def setIfNilKeysOf (ops : List Op) : List String :=
  ops.flatMap (fun op => match op with | .setIfNil k _ => [k] | _ => [])

def delKeysOf (ops : List Op) : List String := ops.flatMap Op.delKeys

def overwriteKeysOf (ops : List Op) : List String := ops.flatMap Op.overwriteKeys

theorem get_applyOp_of_not_writes {k : String} {op : Op} (d : Doc)
    (h : k ∉ op.writeKeys) : Doc.get (applyOp d op) k = Doc.get d k := by
  cases op with
  | set k0 v =>
    have : ¬ k = k0 := by simpa [Op.writeKeys] using h
    simp [applyOp, Doc.get_set, this]
  | setIfNil k0 v =>
    have : ¬ k = k0 := by simpa [Op.writeKeys] using h
    simp [applyOp, Doc.get_setIfNil, this]
  | del k0 =>
    have : ¬ k = k0 := by simpa [Op.writeKeys] using h
    simp [applyOp, Doc.get_del, this]
  | guard2 k1 k2 v =>
    have : ¬ k = k2 := by simpa [Op.writeKeys] using h
    simp only [applyOp]
    split
    · simp [Doc.get_set, this]
    · rfl

theorem get_applyOps_of_not_writes {k : String} {ops : List Op} (d : Doc)
    (h : ∀ op ∈ ops, k ∉ op.writeKeys) :
    Doc.get (applyOps ops d) k = Doc.get d k := by
  induction ops generalizing d with
  | nil => rfl
  | cons op rest ih =>
    rw [applyOps_cons, ih _ (fun o ho => h o (List.mem_cons_of_mem _ ho)),
      get_applyOp_of_not_writes d (h op (List.mem_cons_self _ _))]

/-- A present value survives any operation that is not an unconditional
overwrite or a deletion of its key. -/
theorem get_applyOp_of_some {k : String} {v : Value} {op : Op} {d : Doc}
    (hv : Doc.get d k = some v) (h : k ∉ op.overwriteKeys) :
    Doc.get (applyOp d op) k = some v := by
  cases op with
  | set k0 v0 =>
    have : ¬ k = k0 := by simpa [Op.overwriteKeys] using h
    simp [applyOp, Doc.get_set, this, hv]
  | setIfNil k0 v0 =>
    by_cases hk : k = k0
    · subst hk
      rw [applyOp, Doc.setIfNil_of_isSome _ (by simp [hv])]
      exact hv
    · simp [applyOp, Doc.get_setIfNil, hk, hv]
  | del k0 =>
    have : ¬ k = k0 := by simpa [Op.overwriteKeys] using h
    simp [applyOp, Doc.get_del, this, hv]
  | guard2 k1 k2 v0 =>
    simp only [applyOp]
    split
    · rename_i hg
      have : ¬ k = k2 := fun hh => by
        rw [hh, hg.2] at hv
        exact Option.noConfusion hv
      simp [Doc.get_set, this, hv]
    · exact hv

theorem get_applyOps_of_some {k : String} {v : Value} {ops : List Op} {d : Doc}
    (hv : Doc.get d k = some v) (h : ∀ op ∈ ops, k ∉ op.overwriteKeys) :
    Doc.get (applyOps ops d) k = some v := by
  induction ops generalizing d with
  | nil => exact hv
  | cons op rest ih =>
    rw [applyOps_cons]
    exact ih (get_applyOp_of_some hv (h op (List.mem_cons_self _ _)))
      (fun o ho => h o (List.mem_cons_of_mem _ ho))

/-- Presence of a key is preserved by every operation except a deletion of
that key. -/
theorem isSome_applyOp {k : String} {op : Op} {d : Doc}
    (hv : (Doc.get d k).isSome) (h : k ∉ op.delKeys) :
    (Doc.get (applyOp d op) k).isSome := by
  cases op with
  | set k0 v0 =>
    by_cases hk : k = k0 <;> simp [applyOp, Doc.get_set, hk, hv]
  | setIfNil k0 v0 =>
    by_cases hk : k = k0
    · subst hk
      rw [applyOp, Doc.setIfNil_of_isSome _ hv]
      exact hv
    · simpa [applyOp, Doc.get_setIfNil, hk] using hv
  | del k0 =>
    have : ¬ k = k0 := by simpa [Op.delKeys] using h
    simpa [applyOp, Doc.get_del, this] using hv
  | guard2 k1 k2 v0 =>
    simp only [applyOp]
    split
    · by_cases hk : k = k2 <;> simp [Doc.get_set, hk, hv]
    · exact hv

theorem isSome_applyOps {k : String} {ops : List Op} {d : Doc}
    (hv : (Doc.get d k).isSome) (h : k ∉ delKeysOf ops) :
    (Doc.get (applyOps ops d) k).isSome := by
  induction ops generalizing d with
  | nil => exact hv
  | cons op rest ih =>
    rw [applyOps_cons]
    have h1 : k ∉ op.delKeys := fun hk =>
      h (by simp [delKeysOf, List.mem_cons_self]; exact Or.inl hk)
    have h2 : k ∉ delKeysOf rest := fun hk =>
      h (by simp [delKeysOf] at hk ⊢; right; exact hk)
    exact ih (isSome_applyOp hv h1) h2

/-- After a `SetIfNil k v` in the cascade, `k` is present in the result,
provided no operation in the cascade deletes `k`. -/
theorem isSome_of_setIfNil_mem {k : String} {ops : List Op} {d : Doc}
    (hmem : k ∈ setIfNilKeysOf ops) (hdel : k ∉ delKeysOf ops) :
    (Doc.get (applyOps ops d) k).isSome := by
  induction ops generalizing d with
  | nil => simp [setIfNilKeysOf] at hmem
  | cons op rest ih =>
    have hdel1 : k ∉ op.delKeys := fun hk =>
      hdel (by simp [delKeysOf]; exact Or.inl hk)
    have hdelr : k ∉ delKeysOf rest := fun hk =>
      hdel (by simp [delKeysOf] at hk ⊢; right; exact hk)
    rw [applyOps_cons]
    by_cases hop : k ∈ (match op with | Op.setIfNil k0 _ => [k0] | _ => ([] : List String))
    · -- this operation writes `k`
      match op with
      | Op.setIfNil k0 v0 =>
        have hk : k = k0 := by simpa using hop
        subst hk
        have : (Doc.get (Doc.setIfNil d k v0) k).isSome := by
          rw [Doc.get_setIfNil, if_pos rfl]
          cases Doc.get d k <;> simp
        exact isSome_applyOps this hdelr
    · have : k ∈ setIfNilKeysOf rest := by
        simp [setIfNilKeysOf] at hmem ⊢
        rcases hmem with h1 | h1
        · exact absurd (by simpa using h1) (by simpa using hop)
        · exact h1
      exact ih this hdelr

/-- After a `guard2 k1 k2 v` in the cascade, at least one of `k1`, `k2` is
present in the result, provided neither is ever deleted. -/
theorem guard2_mem_isSome {k1 k2 : String} {v : Value} {ops : List Op} {d : Doc}
    (hmem : Op.guard2 k1 k2 v ∈ ops)
    (hdel1 : k1 ∉ delKeysOf ops) (hdel2 : k2 ∉ delKeysOf ops) :
    (Doc.get (applyOps ops d) k1).isSome ∨ (Doc.get (applyOps ops d) k2).isSome := by
  induction ops generalizing d with
  | nil => simp at hmem
  | cons op rest ih =>
    have hd1 : k1 ∉ delKeysOf rest := fun hk =>
      hdel1 (by simp [delKeysOf] at hk ⊢; right; exact hk)
    have hd2 : k2 ∉ delKeysOf rest := fun hk =>
      hdel2 (by simp [delKeysOf] at hk ⊢; right; exact hk)
    rw [applyOps_cons]
    rcases List.mem_cons.mp hmem with heq | hrest
    · -- the guard is the head operation
      subst heq
      simp only [applyOp]
      split
      · -- both keys absent: `k2` gets written
        have : (Doc.get (Doc.set d k2 v) k2).isSome := by
          simp [Doc.get_set]
        exact Or.inr (isSome_applyOps this hd2)
      · -- one of the keys is already present
        rename_i hg
        rw [Classical.not_and_iff_or_not_not] at hg
        rcases hg with hg | hg
        · have : (Doc.get d k1).isSome := by
            cases h : Doc.get d k1
            · exact absurd h hg
            · simp
          exact Or.inl (isSome_applyOps this hd1)
        · have : (Doc.get d k2).isSome := by
            cases h : Doc.get d k2
            · exact absurd h hg
            · simp
          exact Or.inr (isSome_applyOps this hd2)
    · exact ih hrest hd1 hd2

/-- A cascade every step of which is already satisfied by `d` leaves `d`
untouched. -/
theorem applyOps_id_of_fixed {ops : List Op} {d : Doc}
    (h : ∀ op ∈ ops, applyOp d op = d) : applyOps ops d = d := by
  induction ops with
  | nil => rfl
  | cons op rest ih =>
    rw [applyOps_cons, h op (List.mem_cons_self _ _)]
    exact ih (fun o ho => h o (List.mem_cons_of_mem _ ho))

theorem applyOp_setIfNil_of_isSome {k : String} {v : Value} {d : Doc}
    (h : (Doc.get d k).isSome) : applyOp d (.setIfNil k v) = d :=
  Doc.setIfNil_of_isSome v h

theorem applyOp_set_of_get_eq {k : String} {v : Value} {d : Doc}
    (h : Doc.get d k = some v) : applyOp d (.set k v) = d :=
  Doc.set_of_get_eq h

theorem applyOp_del_of_none {k : String} {d : Doc}
    (h : Doc.get d k = none) : applyOp d (.del k) = d :=
  Doc.del_of_get_none h

theorem applyOp_guard2_skip {k1 k2 : String} {v : Value} {d : Doc}
    (h : ¬ (Doc.get d k1 = none ∧ Doc.get d k2 = none)) :
    applyOp d (.guard2 k1 k2 v) = d := by
  simp only [applyOp]
  rw [if_neg h]

/-- Key-value pairs written by unconditional `Set` operations. -/
def setPairsOf (ops : List Op) : List (String × Value) :=
  ops.flatMap (fun op => match op with | .set k v => [(k, v)] | _ => [])

/-- Key pairs tested by the guarded writes. -/
def guardPairsOf (ops : List Op) : List (String × String) :=
  ops.flatMap (fun op => match op with | .guard2 k1 k2 _ => [(k1, k2)] | _ => [])

theorem mem_setIfNilKeysOf {k : String} {v : Value} {ops : List Op}
    (h : Op.setIfNil k v ∈ ops) : k ∈ setIfNilKeysOf ops := by
  simp only [setIfNilKeysOf, List.mem_flatMap]
  exact ⟨Op.setIfNil k v, h, by simp⟩

theorem mem_setPairsOf {k : String} {v : Value} {ops : List Op}
    (h : Op.set k v ∈ ops) : (k, v) ∈ setPairsOf ops := by
  simp only [setPairsOf, List.mem_flatMap]
  exact ⟨Op.set k v, h, by simp⟩

theorem mem_delKeysOf {k : String} {ops : List Op}
    (h : Op.del k ∈ ops) : k ∈ delKeysOf ops := by
  simp only [delKeysOf, List.mem_flatMap]
  exact ⟨Op.del k, h, by simp [Op.delKeys]⟩

theorem mem_guardPairsOf {k1 k2 : String} {v : Value} {ops : List Op}
    (h : Op.guard2 k1 k2 v ∈ ops) : (k1, k2) ∈ guardPairsOf ops := by
  simp only [guardPairsOf, List.mem_flatMap]
  exact ⟨Op.guard2 k1 k2 v, h, by simp⟩

theorem Doc.set_append_left {d : Doc} {k : String} (e : Doc) (v : Value)
    (h : (Doc.get d k).isSome) :
    Doc.set (d ++ e) k v = Doc.set d k v ++ e := by
  induction d with
  | nil => simp [Doc.get] at h
  | cons hd tl ih =>
    obtain ⟨k0, v0⟩ := hd
    by_cases h0 : k0 = k
    · simp [Doc.set, h0]
    · have hk : ¬ k = k0 := fun hh => h0 hh.symm
      have htl : (Doc.get tl k).isSome := by simpa [Doc.get, hk] using h
      simp [Doc.set, h0, ih htl]

theorem or_eq_none {a b : Option Value} (h : a.or b = none) :
    a = none ∧ b = none := by
  cases a <;> cases b <;> simp_all [Option.or]

theorem isSome_or_right (a : Option Value) (v : Value) :
    ((a.or (some v)).isSome) := by
  cases a <;> simp [Option.or]

/-- Condition under which rerunning one operation on a document `d`,
extended by a tail of pending entries whose keys all lie in `D`, keeps the
`d ++ tail` shape with tail keys in `D`:  a `SetIfNil` key must be present
in `d` or belong to `D`, a `Set` must rewrite the value `d` already holds,
a `Del` key must be absent from `d`, and a guard must see one of its two
keys present in `d`. -/
def ExtCond (d : Doc) (D : List String) : Op → Prop
  | .setIfNil k _ => (Doc.get d k).isSome ∨ k ∈ D
  | .set k v => Doc.get d k = some v
  | .del k => Doc.get d k = none
  | .guard2 k1 k2 _ => (Doc.get d k1).isSome ∨ (Doc.get d k2).isSome

theorem applyOps_extend (ops : List Op) (d : Doc) (D : List String) :
    ∀ e : Doc, (∀ op ∈ ops, ExtCond d D op) → (∀ x ∈ e, x.1 ∈ D) →
      ∃ e1, applyOps ops (d ++ e) = d ++ e1 ∧ ∀ x ∈ e1, x.1 ∈ D := by
  induction ops with
  | nil => exact fun e _ he => ⟨e, rfl, he⟩
  | cons op rest ih =>
    intro e hcond he
    have hop := hcond op (List.mem_cons_self _ _)
    have hrest := fun o ho => hcond o (List.mem_cons_of_mem _ ho)
    rw [applyOps_cons]
    match op with
    | .setIfNil k v =>
      cases hc : Doc.get (d ++ e) k with
      | some w =>
        have habs : applyOp (d ++ e) (.setIfNil k v) = d ++ e := by
          simp only [applyOp]
          exact Doc.setIfNil_of_isSome v (by rw [hc]; rfl)
        rw [habs]
        exact ih e hrest he
      | none =>
        have hc2 := hc
        rw [Doc.get_append] at hc2
        have hde := or_eq_none hc2
        have hkD : k ∈ D := by
          rcases hop with hs | hs
          · rw [hde.1] at hs; simp at hs
          · exact hs
        have happ : applyOp (d ++ e) (.setIfNil k v) = d ++ (e ++ [(k, v)]) := by
          simp only [applyOp]
          rw [Doc.setIfNil_of_none v hc, List.append_assoc]
        rw [happ]
        refine ih (e ++ [(k, v)]) hrest ?_
        intro x hx
        rcases List.mem_append.mp hx with hx | hx
        · exact he x hx
        · simp only [List.mem_singleton] at hx
          rw [hx]
          exact hkD
    | .set k v =>
      have hset : applyOp (d ++ e) (.set k v) = d ++ e := by
        simp only [applyOp]
        rw [Doc.set_append_left e v (by rw [hop]; rfl), Doc.set_of_get_eq hop]
      rw [hset]
      exact ih e hrest he
    | .del k =>
      have hdel : applyOp (d ++ e) (.del k) = d ++ Doc.del e k := by
        simp only [applyOp]
        rw [Doc.del_append, Doc.del_of_get_none hop]
      rw [hdel]
      refine ih (Doc.del e k) hrest ?_
      intro x hx
      exact he x (List.mem_of_mem_filter hx)
    | .guard2 k1 k2 v =>
      have hg : ¬ (Doc.get (d ++ e) k1 = none ∧ Doc.get (d ++ e) k2 = none) := by
        rintro ⟨h1, h2⟩
        rw [Doc.get_append] at h1 h2
        rcases hop with hs | hs
        · rw [(or_eq_none h1).1] at hs
          simp at hs
        · rw [(or_eq_none h2).1] at hs
          simp at hs
      rw [applyOp_guard2_skip hg]
      exact ih e hrest he

/-- Packaging of `ExtCond` for a whole cascade through the per-kind key
lists, so the side conditions can be checked on literal lists. -/
theorem extCond_of_kinds {ops : List Op} {d : Doc} {D : List String}
    (hsif : ∀ k ∈ setIfNilKeysOf ops, (Doc.get d k).isSome ∨ k ∈ D)
    (hset : ∀ p ∈ setPairsOf ops, Doc.get d p.1 = some p.2)
    (hdel : ∀ k ∈ delKeysOf ops, Doc.get d k = none)
    (hg : ∀ p ∈ guardPairsOf ops, (Doc.get d p.1).isSome ∨ (Doc.get d p.2).isSome) :
    ∀ op ∈ ops, ExtCond d D op := by
  intro op hmem
  match op with
  | .setIfNil k v => exact hsif k (mem_setIfNilKeysOf hmem)
  | .set k v => exact hset (k, v) (mem_setPairsOf hmem)
  | .del k => exact hdel k (mem_delKeysOf hmem)
  | .guard2 k1 k2 v => exact hg (k1, k2) (mem_guardPairsOf hmem)

/-- Deleting a key removes every entry carrying it. -/
theorem Doc.del_all {e : Doc} {k : String} (h : ∀ x ∈ e, x.1 = k) :
    Doc.del e k = [] := by
  induction e with
  | nil => rfl
  | cons hd tl ih =>
    have hk : hd.1 = k := h hd (List.mem_cons_self _ _)
    obtain ⟨k0, v0⟩ := hd
    rw [Doc.del_cons, if_pos hk]
    exact ih (fun x hx => h x (List.mem_cons_of_mem _ hx))

theorem mem_of_mem_del {e : Doc} {k : String} {x : String × Value}
    (h : x ∈ Doc.del e k) : x ∈ e :=
  List.mem_of_mem_filter h

theorem not_key_of_mem_del {e : Doc} {k : String} {x : String × Value}
    (h : x ∈ Doc.del e k) : ¬ x.1 = k := by
  have := List.of_mem_filter h
  simpa using this

/-- Two successive deletions empty a tail whose keys all lie in the deleted
pair. -/
theorem Doc.del_del_of_keys {e : Doc} {k1 k2 : String}
    (h : ∀ x ∈ e, x.1 = k1 ∨ x.1 = k2) :
    Doc.del (Doc.del e k1) k2 = [] := by
  apply Doc.del_all
  intro x hx
  rcases h x (mem_of_mem_del hx) with h1 | h2
  · exact absurd h1 (not_key_of_mem_del hx)
  · exact h2

/-!  Cluster model.  The topology facts the module reads from the
`TidbCluster` object (spec §3/§6): identity, version, flags, storage-volume
count, optional reference-cluster descriptor, and the partial config. -/

/-- Reference cluster descriptor (`v1alpha1.TidbClusterRef`): name,
namespace and domain suffix. -/
structure TidbClusterRef where
  name : String
  ns : String
  clusterDomain : String
  deriving DecidableEq, Repr

/-- `v1alpha1.TiFlashConfigWraper`: the engine (`Common`) and proxy document
pair; either sub-document may be absent. -/
structure TiFlashConfigWraper where
  common : Option Doc
  proxy : Option Doc
  deriving DecidableEq, Repr

/-- The slice of `v1alpha1.TidbCluster` the module reads.  The topology
booleans (`AcrossK8s`, `WithoutLocalPD`, `WithoutLocalTiDB`,
`IsTLSClusterEnabled`, `PreferIPv6`) and the version accessor are defined
outside `src/`; per spec §3/§6 they are independent input facts, so they are
fields here. -/
structure TidbCluster where
  name : String
  ns : String
  clusterDomain : String
  tiflashVersion : String
  preferIPv6 : Bool
  tlsClusterEnabled : Bool
  storageClaims : Nat
  clusterRef : Option TidbClusterRef
  acrossK8s : Bool
  withoutLocalPD : Bool
  withoutLocalTiDB : Bool
  helperImage : String
  helperImagePullPolicy : String
  config : Option TiFlashConfigWraper
  deriving DecidableEq, Repr

/-- Modelled from the spec: `Heterogeneous()` (defined outside `src/`)
holds exactly when the cluster borrows components from a separately
declared reference cluster (spec §3 and glossary), i.e. when the
reference-cluster descriptor is present. -/
def TidbCluster.Heterogeneous (tc : TidbCluster) : Bool := tc.clusterRef.isSome

/-- Replaces only the partial config, keeping every topology input. -/
def TidbCluster.withConfig (tc : TidbCluster) (c : Option TiFlashConfigWraper) :
    TidbCluster :=
  ⟨tc.name, tc.ns, tc.clusterDomain, tc.tiflashVersion, tc.preferIPv6,
    tc.tlsClusterEnabled, tc.storageClaims, tc.clusterRef, tc.acrossK8s,
    tc.withoutLocalPD, tc.withoutLocalTiDB, tc.helperImage,
    tc.helperImagePullPolicy, c⟩

def defaultClusterLog : String := "/data0/logs/flash_cluster_manager.log"
def defaultErrorLog : String := "/data0/logs/error.log"
def defaultServerLog : String := "/data0/logs/server.log"
def listenHostForIPv4 : String := "0.0.0.0"
def listenHostForIPv6 : String := "[::]"

/-- Modelled from the spec: the well-known certificate mount-path constant
(`tiflashCertPath`, defined outside `src/`). -/
def tiflashCertPath : String := "/var/lib/tiflash-tls"

/-- Modelled from the spec: the fixed Kubernetes secret key names used for
the CA / certificate / private-key files (`corev1` constants). -/
def serviceAccountRootCAKey : String := "ca.crt"

def tlsCertKey : String := "tls.crt"

def tlsPrivateKeyKey : String := "tls.key"

/-- `path.Join` on two well-formed path components. -/
def pathJoin (a b : String) : String := a ++ "/" ++ b

/-- Modelled from the spec: component DNS service names are derived from
the cluster name by fixed suffixes (`controller.PDMemberName` and friends,
defined outside `src/`). -/
def PDMemberName (n : String) : String := n ++ "-pd"

def TiDBMemberName (n : String) : String := n ++ "-tidb"

def TiDBPeerMemberName (n : String) : String := n ++ "-tidb-peer"

def TiFlashMemberName (n : String) : String := n ++ "-tiflash"

def TiFlashPeerMemberName (n : String) : String := n ++ "-tiflash-peer"

/-- Modelled from the spec: `controller.FormatClusterDomain` prefixes a
nonempty domain suffix with a dot and maps the empty suffix to the empty
string. -/
def FormatClusterDomain (d : String) : String := if d = "" then "" else "." ++ d

/-- The listen host chosen from the IP-family preference
(lines 137-140 and 266-269). -/
def TidbCluster.listenHost (tc : TidbCluster) : String :=
  if tc.preferIPv6 then listenHostForIPv6 else listenHostForIPv4

/-- The per-pod peer address of the TiFlash member with the `POD_NUM`
placeholder (used for `flash.proxy.advertise-addr`, `server.engine-addr`,
`server.advertise-status-addr`). -/
def TidbCluster.tiflashPodAddr (tc : TidbCluster) (port : String) : String :=
  TiFlashMemberName tc.name ++ "-POD_NUM." ++ TiFlashPeerMemberName tc.name ++
    "." ++ tc.ns ++ ".svc" ++ FormatClusterDomain tc.clusterDomain ++ ":" ++ port

/-- Default for `flash.tidb_status_addr`: identical resolution in both
dialects (lines 168-182 and `setTiFlashFlashConfigDefault` lines 379-391;
the V2 `Heterogeneous()` test and the legacy `ref != nil` test coincide
under `TidbCluster.Heterogeneous`). -/
def TidbCluster.tidbStatusAddr (tc : TidbCluster) : String :=
  let localAddr := TiDBMemberName tc.name ++ "." ++ tc.ns ++ ".svc:10080"
  if tc.withoutLocalTiDB then
    match tc.clusterRef with
    | some ref =>
      if tc.acrossK8s then
        TiDBPeerMemberName ref.name ++ "." ++ ref.ns ++ ".svc" ++
          FormatClusterDomain ref.clusterDomain ++ ":10080"
      else
        TiDBMemberName ref.name ++ "." ++ ref.ns ++ ".svc" ++
          FormatClusterDomain ref.clusterDomain ++ ":10080"
    | none => localAddr
  else localAddr

/-- Default for `raft.pd_addr`: identical resolution in both dialects
(lines 196-203 and `setTiFlashRaftConfigDefault` lines 429-435). -/
def TidbCluster.pdAddr (tc : TidbCluster) : String :=
  let localAddr := PDMemberName tc.name ++ "." ++ tc.ns ++ ".svc:2379"
  if tc.acrossK8s then "PD_ADDR"
  else
    match tc.clusterRef with
    | some ref =>
      if tc.withoutLocalPD then
        PDMemberName ref.name ++ "." ++ ref.ns ++ ".svc" ++
          FormatClusterDomain ref.clusterDomain ++ ":2379"
      else localAddr
    | none => localAddr

/-- The `/dataN/db` path list built from the declared storage volumes
(lines 147-150 and 252-255). -/
def storagePathList (count : Nat) : List String :=
  (List.range count).map (fun i => "/data" ++ toString i ++ "/db")

/-- Current-dialect storage paths: one default volume when none declared
(lines 147-153). -/
def TidbCluster.v2StoragePaths (tc : TidbCluster) : List String :=
  if tc.storageClaims = 0 then ["/data0/db"] else storagePathList tc.storageClaims

/-- Legacy comma-joined storage path (lines 252-257). -/
def legacyJoinedPath (count : Nat) : String :=
  String.intercalate "," (storagePathList count)

def NewTiFlashConfig : TiFlashConfigWraper := ⟨none, none⟩

def NewTiFlashCommonConfig : Doc := []

def NewTiFlashProxyConfig : Doc := []

/-- Security writes on the engine document under TLS
(lines 221-223 and 278-280). -/
def commonSecurityOps : List Op :=
  [.set "security.ca_path" (.str (pathJoin tiflashCertPath serviceAccountRootCAKey)),
   .set "security.cert_path" (.str (pathJoin tiflashCertPath tlsCertKey)),
   .set "security.key_path" (.str (pathJoin tiflashCertPath tlsPrivateKeyKey))]

/-- Security writes on the proxy document under TLS
(lines 229-231 and 275-277). -/
def proxySecurityOps : List Op :=
  [.set "security.ca-path" (.str (pathJoin tiflashCertPath serviceAccountRootCAKey)),
   .set "security.cert-path" (.str (pathJoin tiflashCertPath tlsCertKey)),
   .set "security.key-path" (.str (pathJoin tiflashCertPath tlsPrivateKeyKey))]

/-- The legacy guarded storage-path write (lines 251-260): only when `path`
is absent and at least one storage volume is declared. -/
def legacyPathOps (tc : TidbCluster) : List Op :=
  if tc.storageClaims = 0 then []
  else [.guard2 "path" "path" (.str (legacyJoinedPath tc.storageClaims))]

/-- The legacy default cascade on the engine document, in source order:
the guarded storage path (lines 251-260), then
`setTiFlashCommonConfigDefault` (lines 330-376) with its nested helpers
`setTiFlashFlashConfigDefault` (378-410), `setTiFlashLoggerConfigDefault`
(412-419), `setTiFlashApplicationConfigDefault` (421-423) and
`setTiFlashRaftConfigDefault` (425-436) inlined at their call sites. -/
def legacyMainOps (tc : TidbCluster) : List Op :=
  [.setIfNil "tmp_path" (.str "/data0/tmp"),
   .setIfNil "display_name" (.str "TiFlash"),
   .setIfNil "default_profile" (.str "default"),
   .setIfNil "path" (.str "/data0/db"),
   .setIfNil "path_realtime_mode" (.bool false),
   .setIfNil "mark_cache_size" (.int 5368709120),
   .setIfNil "minmax_index_cache_size" (.int 5368709120),
   .setIfNil "tcp_port" (.int 9000),
   .setIfNil "tcp_port_secure" (.int 9000),
   .setIfNil "https_port" (.int 8123),
   .setIfNil "http_port" (.int 8123),
   .setIfNil "interserver_http_port" (.int 9009),
   .setIfNil "flash.tidb_status_addr" (.str tc.tidbStatusAddr),
   .setIfNil "flash.service_addr" (.str (tc.listenHost ++ ":3930")),
   .setIfNil "flash.overlap_threshold" (.rat (6 / 10)),
   .setIfNil "flash.compact_log_min_period" (.int 200),
   .setIfNil "flash.flash_cluster.cluster_manager_path" (.str "/tiflash/flash_cluster_manager"),
   .setIfNil "flash.flash_cluster.log" (.str defaultClusterLog),
   .setIfNil "flash.flash_cluster.refresh_interval" (.int 20),
   .setIfNil "flash.flash_cluster.update_rule_interval" (.int 10),
   .setIfNil "flash.flash_cluster.master_ttl" (.int 60),
   .setIfNil "flash.proxy.addr" (.str (tc.listenHost ++ ":20170")),
   .setIfNil "flash.proxy.advertise-addr" (.str (tc.tiflashPodAddr "20170")),
   .setIfNil "flash.proxy.data-dir" (.str "/data0/proxy"),
   .setIfNil "flash.proxy.config" (.str "/data0/proxy.toml"),
   .setIfNil "logger.errorlog" (.str defaultErrorLog),
   .setIfNil "logger.size" (.str "100M"),
   .setIfNil "logger.log" (.str defaultServerLog),
   .setIfNil "logger.level" (.str "information"),
   .setIfNil "logger.count" (.int 10),
   .setIfNil "application.runAsDaemon" (.bool true),
   .setIfNil "raft.kvstore_path" (.str "/data0/kvstore"),
   .setIfNil "raft.storage_engine" (.str "dt"),
   .setIfNil "raft.pd_addr" (.str tc.pdAddr),
   .setIfNil "listen_host" (.str (if tc.preferIPv6 then "::" else listenHostForIPv4)),
   .setIfNil "status.metrics_port" (.int 8234),
   .setIfNil "quotas.default.interval.duration" (.int 3600),
   .setIfNil "quotas.default.interval.queries" (.int 0),
   .setIfNil "quotas.default.interval.errors" (.int 0),
   .setIfNil "quotas.default.interval.result_rows" (.int 0),
   .setIfNil "quotas.default.interval.read_rows" (.int 0),
   .setIfNil "quotas.default.interval.execution_time" (.int 0),
   .setIfNil "users.readonly.profile" (.str "readonly"),
   .setIfNil "users.readonly.quota" (.str "default"),
   .setIfNil "users.readonly.networks.ip" (.str "::/0"),
   .setIfNil "users.readonly.password" (.str ""),
   .setIfNil "users.default.profile" (.str "default"),
   .setIfNil "users.default.quota" (.str "default"),
   .setIfNil "users.default.networks.ip" (.str "::/0"),
   .setIfNil "users.default.password" (.str ""),
   .setIfNil "profiles.readonly.readonly" (.int 1),
   .setIfNil "profiles.default.max_memory_usage" (.int 10000000000),
   .setIfNil "profiles.default.load_balancing" (.str "random"),
   .setIfNil "profiles.default.use_uncompressed_cache" (.int 0)]

/-- The whole legacy default cascade on the engine document
(lines 251-260 followed by `setTiFlashCommonConfigDefault`). -/
def legacyCommonDefaultOps (tc : TidbCluster) : List Op :=
  legacyPathOps tc ++ legacyMainOps tc

/-- The legacy proxy default cascade (`setTiFlashProxyConfigDefault`,
lines 323-328). -/
def legacyProxyDefaultOps (tc : TidbCluster) : List Op :=
  [.setIfNil "log-level" (.str "info"),
   .setIfNil "server.engine-addr" (.str (tc.tiflashPodAddr "3930")),
   .setIfNil "server.status-addr" (.str (tc.listenHost ++ ":20292")),
   .setIfNil "server.advertise-status-addr" (.str (tc.tiflashPodAddr "20292"))]

/-- The one-directional, non-overwriting propagation of the allowed-client
name restriction from the engine into the proxy document
(lines 233-235 and 282-286). -/
def certCNCopy (common proxyDoc : Doc) : Doc :=
  match Doc.get common "security.cert_allowed_cn",
        Doc.get proxyDoc "security.cert-allowed-cn" with
  | some v, none => Doc.set proxyDoc "security.cert-allowed-cn" v
  | _, _ => proxyDoc

/-- The caller document the synthesizers start from: the deep-copied
engine sub-document, default-constructed when absent. -/
def TidbCluster.common0 (tc : TidbCluster) : Doc :=
  ((tc.config.getD NewTiFlashConfig).common).getD NewTiFlashCommonConfig

def TidbCluster.proxy0 (tc : TidbCluster) : Doc :=
  ((tc.config.getD NewTiFlashConfig).proxy).getD NewTiFlashProxyConfig

/-- Engine document after the legacy default cascade (lines 247-271). -/
def legacyCommonPre (tc : TidbCluster) : Doc :=
  applyOps (legacyCommonDefaultOps tc) tc.common0

/-- Proxy document after the legacy default cascade (line 271 via
`setTiFlashProxyConfigDefault`). -/
def legacyProxyPre (tc : TidbCluster) : Doc :=
  applyOps (legacyProxyDefaultOps tc) tc.proxy0

/-- Engine document after the legacy TLS security writes (lines 278-280). -/
def legacyCommonSec (tc : TidbCluster) : Doc :=
  applyOps commonSecurityOps (legacyCommonPre tc)

/-- `getTiFlashConfig` — the legacy-dialect synthesizer (lines 241-298). -/
def getTiFlashConfig (tc : TidbCluster) : TiFlashConfigWraper :=
  if tc.tlsClusterEnabled then
    ⟨some (Doc.del (Doc.del (legacyCommonSec tc) "http_port") "tcp_port"),
     some (certCNCopy (legacyCommonSec tc)
       (applyOps proxySecurityOps (legacyProxyPre tc)))⟩
  else
    ⟨some (Doc.del (Doc.del (legacyCommonPre tc) "https_port") "tcp_port_secure"),
     some (legacyProxyPre tc)⟩

/-- The current-dialect base cascade on the engine document
(lines 142-203), in source order. -/
def v2BaseOps (tc : TidbCluster) : List Op :=
  [.guard2 "path" "storage.main.dir" (.strList tc.v2StoragePaths),
   .guard2 "raft.kvstore_path" "storage.raft.dir" (.strList ["/data0/kvstore"]),
   .setIfNil "tmp_path" (.str "/data0/tmp"),
   .setIfNil "tcp_port" (.int 9000),
   .setIfNil "http_port" (.int 8123),
   .setIfNil "flash.tidb_status_addr" (.str tc.tidbStatusAddr),
   .setIfNil "flash.service_addr" (.str (tc.listenHost ++ ":3930")),
   .setIfNil "flash.flash_cluster.log" (.str defaultClusterLog),
   .setIfNil "flash.proxy.addr" (.str (tc.listenHost ++ ":20170")),
   .setIfNil "flash.proxy.advertise-addr" (.str (tc.tiflashPodAddr "20170")),
   .setIfNil "flash.proxy.data-dir" (.str "/data0/proxy"),
   .setIfNil "flash.proxy.config" (.str "/data0/proxy.toml"),
   .setIfNil "logger.errorlog" (.str defaultErrorLog),
   .setIfNil "logger.log" (.str defaultServerLog),
   .setIfNil "raft.pd_addr" (.str tc.pdAddr)]

/-- The current-dialect IPv6-only writes (lines 205-208). -/
def v2IPv6Ops : List Op :=
  [.setIfNil "listen_host" (.str "::"),
   .setIfNil "status.metrics_port" (.int 8234)]

/-- The current-dialect TLS writes on the engine document before the
plaintext-port deletions (lines 221-225). -/
def v2TlsMainOps : List Op :=
  commonSecurityOps ++
  [.setIfNil "tcp_port_secure" (.int 9000),
   .setIfNil "https_port" (.int 8123)]

/-- The current-dialect plaintext-port deletions under TLS
(lines 226-227). -/
def v2TlsDelOps : List Op :=
  [.del "http_port", .del "tcp_port"]

/-- The current-dialect cascade on the engine document (lines 142-209 and
the common part of the TLS block, lines 220-227), in source order. -/
def v2CommonOps (tc : TidbCluster) : List Op :=
  v2BaseOps tc
  ++ (if tc.preferIPv6 then v2IPv6Ops else [])
  ++ (if tc.tlsClusterEnabled then v2TlsMainOps ++ v2TlsDelOps else [])

/-- The current-dialect cascade on the proxy document (lines 211-217 and
the proxy part of the TLS block, lines 229-231). -/
def v2ProxyOps (tc : TidbCluster) : List Op :=
  [.setIfNil "log-level" (.str "info"),
   .setIfNil "server.engine-addr" (.str (tc.tiflashPodAddr "3930")),
   .setIfNil "server.status-addr" (.str (tc.listenHost ++ ":20292")),
   .setIfNil "server.advertise-status-addr" (.str (tc.tiflashPodAddr "20292"))]
  ++ (if tc.tlsClusterEnabled then proxySecurityOps else [])

/-- Engine document of the current dialect (lines 142-227). -/
def v2CommonDoc (tc : TidbCluster) : Doc :=
  applyOps (v2CommonOps tc) tc.common0

/-- Proxy document of the current dialect before the allowed-client-name
propagation (lines 211-217 and 229-231). -/
def v2ProxyPre (tc : TidbCluster) : Doc :=
  applyOps (v2ProxyOps tc) tc.proxy0

/-- `getTiFlashConfigV2` — the current-dialect synthesizer (lines 119-239). -/
def getTiFlashConfigV2 (tc : TidbCluster) : TiFlashConfigWraper :=
  ⟨some (v2CommonDoc tc),
   some (if tc.tlsClusterEnabled then certCNCopy (v2CommonDoc tc) (v2ProxyPre tc)
         else v2ProxyPre tc)⟩

theorem setIfNilKeysOf_append (l1 l2 : List Op) :
    setIfNilKeysOf (l1 ++ l2) = setIfNilKeysOf l1 ++ setIfNilKeysOf l2 := by
  simp [setIfNilKeysOf]

theorem delKeysOf_append (l1 l2 : List Op) :
    delKeysOf (l1 ++ l2) = delKeysOf l1 ++ delKeysOf l2 := by
  simp [delKeysOf]

theorem setPairsOf_append (l1 l2 : List Op) :
    setPairsOf (l1 ++ l2) = setPairsOf l1 ++ setPairsOf l2 := by
  simp [setPairsOf]

theorem guardPairsOf_append (l1 l2 : List Op) :
    guardPairsOf (l1 ++ l2) = guardPairsOf l1 ++ guardPairsOf l2 := by
  simp [guardPairsOf]

theorem delKeysOf_v2Base (tc : TidbCluster) : delKeysOf (v2BaseOps tc) = [] := rfl

theorem delKeysOf_ipv6Seg (b : Bool) :
    delKeysOf (if b then v2IPv6Ops else []) = [] := by cases b <;> rfl

theorem setPairsOf_ipv6Seg (b : Bool) :
    setPairsOf (if b then v2IPv6Ops else []) = [] := by cases b <;> rfl

theorem guardPairsOf_ipv6Seg (b : Bool) :
    guardPairsOf (if b then v2IPv6Ops else []) = [] := by cases b <;> rfl

theorem delKeysOf_v2TlsMain : delKeysOf v2TlsMainOps = [] := rfl

theorem delKeysOf_v2TlsDel : delKeysOf v2TlsDelOps = ["http_port", "tcp_port"] := rfl

theorem delKeysOf_nil : delKeysOf [] = [] := rfl

theorem setPairsOf_nil : setPairsOf [] = [] := rfl

theorem guardPairsOf_nil : guardPairsOf [] = [] := rfl

theorem setPairsOf_v2Base (tc : TidbCluster) : setPairsOf (v2BaseOps tc) = [] := rfl

theorem guardPairsOf_v2Base (tc : TidbCluster) :
    guardPairsOf (v2BaseOps tc) =
      [("path", "storage.main.dir"), ("raft.kvstore_path", "storage.raft.dir")] := rfl

theorem setPairsOf_v2TlsMain :
    setPairsOf v2TlsMainOps =
      [("security.ca_path", .str (pathJoin tiflashCertPath serviceAccountRootCAKey)),
       ("security.cert_path", .str (pathJoin tiflashCertPath tlsCertKey)),
       ("security.key_path", .str (pathJoin tiflashCertPath tlsPrivateKeyKey))] := rfl

theorem guardPairsOf_v2TlsMain : guardPairsOf v2TlsMainOps = [] := rfl

theorem setIfNilKeysOf_v2TlsDel : setIfNilKeysOf v2TlsDelOps = [] := rfl

theorem setPairsOf_v2TlsDel : setPairsOf v2TlsDelOps = [] := rfl

theorem guardPairsOf_v2TlsDel : guardPairsOf v2TlsDelOps = [] := rfl

/-- The current-dialect common delete keys: the two plaintext ports under
TLS, nothing otherwise. -/
theorem delKeysOf_v2Common (tc : TidbCluster) :
    delKeysOf (v2CommonOps tc) =
      if tc.tlsClusterEnabled then ["http_port", "tcp_port"] else [] := by
  cases htls : tc.tlsClusterEnabled <;>
    simp [v2CommonOps, htls, delKeysOf_append, delKeysOf_v2Base,
      delKeysOf_ipv6Seg, delKeysOf_v2TlsMain, delKeysOf_v2TlsDel, delKeysOf_nil]

theorem tail_nil_of_keys_nil {e : Doc} (h : ∀ x ∈ e, x.1 ∈ ([] : List String)) :
    e = [] := by
  cases e with
  | nil => rfl
  | cons x xs => exact absurd (h x (List.mem_cons_self _ _)) (List.not_mem_nil _)

/-- Rerunning the current-dialect common cascade on its own output is the
identity. -/
theorem v2Common_absorb (tc : TidbCluster) (c0 : Doc) :
    applyOps (v2CommonOps tc) (applyOps (v2CommonOps tc) c0) =
      applyOps (v2CommonOps tc) c0 := by
  have hg1mem : Op.guard2 "path" "storage.main.dir" (.strList tc.v2StoragePaths)
      ∈ v2CommonOps tc := by
    simp [v2CommonOps, v2BaseOps]
  have hg2mem : Op.guard2 "raft.kvstore_path" "storage.raft.dir" (.strList ["/data0/kvstore"])
      ∈ v2CommonOps tc := by
    simp [v2CommonOps, v2BaseOps]
  cases htls : tc.tlsClusterEnabled with
  | false =>
    -- no deletions anywhere: every cascade step is absorbed in place
    set c1 := applyOps (v2CommonOps tc) c0 with hc1
    have hdels : delKeysOf (v2CommonOps tc) = [] := by
      rw [delKeysOf_v2Common, htls, if_neg (by simp)]
    have hsetp : setPairsOf (v2CommonOps tc) = [] := by
      simp [v2CommonOps, htls, setPairsOf_append, setPairsOf_ipv6Seg,
        setPairsOf_v2Base, setPairsOf_nil]
    have hguardp : guardPairsOf (v2CommonOps tc) =
        [("path", "storage.main.dir"), ("raft.kvstore_path", "storage.raft.dir")] := by
      simp [v2CommonOps, htls, guardPairsOf_append, guardPairsOf_ipv6Seg,
        guardPairsOf_v2Base, guardPairsOf_nil]
    have hcond : ∀ op ∈ v2CommonOps tc, ExtCond c1 [] op := by
      refine extCond_of_kinds ?_ ?_ ?_ ?_
      · intro k hk
        exact Or.inl (isSome_of_setIfNil_mem hk (by rw [hdels]; exact List.not_mem_nil k))
      · intro p hp
        rw [hsetp] at hp
        exact absurd hp (List.not_mem_nil p)
      · intro k hk
        rw [hdels] at hk
        exact absurd hk (List.not_mem_nil k)
      · intro p hp
        rw [hguardp] at hp
        rcases List.mem_cons.mp hp with rfl | hp
        · exact guard2_mem_isSome hg1mem (by rw [hdels]; exact List.not_mem_nil _)
            (by rw [hdels]; exact List.not_mem_nil _)
        · rcases List.mem_cons.mp hp with rfl | hp
          · exact guard2_mem_isSome hg2mem (by rw [hdels]; exact List.not_mem_nil _)
              (by rw [hdels]; exact List.not_mem_nil _)
          · exact absurd hp (List.not_mem_nil p)
    obtain ⟨e1, he1, hk1⟩ :=
      applyOps_extend (v2CommonOps tc) c1 [] [] hcond
        (fun x hx => absurd hx (List.not_mem_nil x))
    rw [List.append_nil] at he1
    rw [he1, tail_nil_of_keys_nil hk1, List.append_nil]
  | true =>
    -- the two plaintext ports are deleted at the very end of the cascade;
    -- rerunning re-appends and re-deletes them
    have hsplit : v2CommonOps tc =
        (v2BaseOps tc ++ (if tc.preferIPv6 then v2IPv6Ops else []) ++ v2TlsMainOps)
          ++ v2TlsDelOps := by
      rw [v2CommonOps, htls, if_pos rfl]
      simp [List.append_assoc]
    set opsMain := v2BaseOps tc ++ (if tc.preferIPv6 then v2IPv6Ops else []) ++ v2TlsMainOps
      with hopsMain
    set c1 := applyOps (v2CommonOps tc) c0 with hc1
    have hdels : delKeysOf (v2CommonOps tc) = ["http_port", "tcp_port"] := by
      rw [delKeysOf_v2Common, htls, if_pos rfl]
    -- shape of the first run: the trailing deletions applied to the main part
    have hc1form : c1 =
        Doc.del (Doc.del (applyOps opsMain c0) "http_port") "tcp_port" := by
      rw [hc1, hsplit, applyOps_append]
      simp [v2TlsDelOps, applyOps, applyOp]
    have hhttp : Doc.get c1 "http_port" = none := by
      rw [hc1form, Doc.get_del, if_neg (by decide), Doc.get_del, if_pos rfl]
    have htcp : Doc.get c1 "tcp_port" = none := by
      rw [hc1form, Doc.get_del, if_pos rfl]
    -- the security values written by the unconditional sets survive to c1
    have hW : applyOps opsMain c0 =
        Doc.setIfNil (Doc.setIfNil (Doc.set (Doc.set (Doc.set
          (applyOps (v2BaseOps tc ++ (if tc.preferIPv6 then v2IPv6Ops else [])) c0)
          "security.ca_path" (.str (pathJoin tiflashCertPath serviceAccountRootCAKey)))
          "security.cert_path" (.str (pathJoin tiflashCertPath tlsCertKey)))
          "security.key_path" (.str (pathJoin tiflashCertPath tlsPrivateKeyKey)))
          "tcp_port_secure" (.int 9000)) "https_port" (.int 8123) := by
      rw [hopsMain, List.append_assoc, applyOps_append]
      simp [v2TlsMainOps, commonSecurityOps, applyOps, applyOp]
    have hca : Doc.get c1 "security.ca_path" =
        some (.str (pathJoin tiflashCertPath serviceAccountRootCAKey)) := by
      rw [hc1form, hW]
      simp [Doc.get_del, Doc.get_setIfNil, Doc.get_set]
    have hcert : Doc.get c1 "security.cert_path" =
        some (.str (pathJoin tiflashCertPath tlsCertKey)) := by
      rw [hc1form, hW]
      simp [Doc.get_del, Doc.get_setIfNil, Doc.get_set]
    have hkey : Doc.get c1 "security.key_path" =
        some (.str (pathJoin tiflashCertPath tlsPrivateKeyKey)) := by
      rw [hc1form, hW]
      simp [Doc.get_del, Doc.get_setIfNil, Doc.get_set]
    -- key bookkeeping on the main segment
    have hkeystrans : setIfNilKeysOf (v2CommonOps tc) = setIfNilKeysOf opsMain := by
      rw [hsplit, setIfNilKeysOf_append]
      simp [v2TlsDelOps, setIfNilKeysOf]
    have hsetp : setPairsOf opsMain =
        [("security.ca_path", .str (pathJoin tiflashCertPath serviceAccountRootCAKey)),
         ("security.cert_path", .str (pathJoin tiflashCertPath tlsCertKey)),
         ("security.key_path", .str (pathJoin tiflashCertPath tlsPrivateKeyKey))] := by
      rw [hopsMain, setPairsOf_append, setPairsOf_append, setPairsOf_ipv6Seg,
        setPairsOf_v2Base, setPairsOf_v2TlsMain]
      rfl
    have hguardp : guardPairsOf opsMain =
        [("path", "storage.main.dir"), ("raft.kvstore_path", "storage.raft.dir")] := by
      rw [hopsMain, guardPairsOf_append, guardPairsOf_append, guardPairsOf_ipv6Seg,
        guardPairsOf_v2Base, guardPairsOf_v2TlsMain]
      rfl
    have hcond : ∀ op ∈ opsMain, ExtCond c1 ["http_port", "tcp_port"] op := by
      refine extCond_of_kinds ?_ ?_ ?_ ?_
      · intro k hk
        by_cases hD : k ∈ ["http_port", "tcp_port"]
        · exact Or.inr hD
        · refine Or.inl (isSome_of_setIfNil_mem (by rw [hkeystrans]; exact hk) ?_)
          rw [hdels]
          exact hD
      · intro p hp
        rw [hsetp] at hp
        rcases List.mem_cons.mp hp with rfl | hp
        · exact hca
        · rcases List.mem_cons.mp hp with rfl | hp
          · exact hcert
          · rcases List.mem_cons.mp hp with rfl | hp
            · exact hkey
            · exact absurd hp (by simp)
      · intro k hk
        have hdm : delKeysOf opsMain = [] := by
          rw [hopsMain, delKeysOf_append, delKeysOf_append, delKeysOf_ipv6Seg,
            delKeysOf_v2Base, delKeysOf_v2TlsMain]
          rfl
        rw [hdm] at hk
        exact absurd hk (List.not_mem_nil k)
      · intro p hp
        rw [hguardp] at hp
        rcases List.mem_cons.mp hp with rfl | hp
        · exact guard2_mem_isSome hg1mem (by rw [hdels]; decide) (by rw [hdels]; decide)
        · rcases List.mem_cons.mp hp with rfl | hp
          · exact guard2_mem_isSome hg2mem (by rw [hdels]; decide) (by rw [hdels]; decide)
          · exact absurd hp (List.not_mem_nil p)
    obtain ⟨e1, he1, hk1⟩ :=
      applyOps_extend opsMain c1 ["http_port", "tcp_port"] [] hcond
        (fun x hx => absurd hx (List.not_mem_nil x))
    rw [List.append_nil] at he1
    calc applyOps (v2CommonOps tc) c1
        = applyOps v2TlsDelOps (applyOps opsMain c1) := by
          rw [hsplit, applyOps_append]
      _ = Doc.del (Doc.del (c1 ++ e1) "http_port") "tcp_port" := by
          rw [he1]
          simp [v2TlsDelOps, applyOps, applyOp]
      _ = c1 := by
          rw [Doc.del_append, Doc.del_of_get_none hhttp, Doc.del_append,
            Doc.del_of_get_none htcp, Doc.del_del_of_keys (by
              intro x hx
              have := hk1 x hx
              simpa using this), List.append_nil]

theorem get_certCNCopy_ne {c p : Doc} {k : String}
    (h : ¬ k = "security.cert-allowed-cn") :
    Doc.get (certCNCopy c p) k = Doc.get p k := by
  rcases hc : Doc.get c "security.cert_allowed_cn" with _ | v <;>
    rcases hp : Doc.get p "security.cert-allowed-cn" with _ | w <;>
      simp [certCNCopy, hc, hp, Doc.get_set, h]

theorem isSome_certCNCopy {c p : Doc} {k : String}
    (h : (Doc.get p k).isSome) : (Doc.get (certCNCopy c p) k).isSome := by
  by_cases hk : k = "security.cert-allowed-cn"
  · subst hk
    rcases hc : Doc.get c "security.cert_allowed_cn" with _ | v <;>
      rcases hp : Doc.get p "security.cert-allowed-cn" with _ | w <;>
        simp [certCNCopy, hc, hp, Doc.get_set] <;> simp [hp] at h
  · rw [get_certCNCopy_ne hk]
    exact h

theorem certCNCopy_idem (c p : Doc) :
    certCNCopy c (certCNCopy c p) = certCNCopy c p := by
  rcases hc : Doc.get c "security.cert_allowed_cn" with _ | v
  · simp [certCNCopy, hc]
  · rcases hp : Doc.get p "security.cert-allowed-cn" with _ | w
    · have hset : Doc.get (Doc.set p "security.cert-allowed-cn" v)
          "security.cert-allowed-cn" = some v := by
        rw [Doc.get_set, if_pos rfl]
      simp [certCNCopy, hc, hp, hset]
    · simp [certCNCopy, hc, hp]

theorem certCNCopy_congr {c c' : Doc} (p : Doc)
    (h : Doc.get c "security.cert_allowed_cn" =
         Doc.get c' "security.cert_allowed_cn") :
    certCNCopy c p = certCNCopy c' p := by
  unfold certCNCopy
  rw [h]

theorem delKeysOf_v2Proxy (tc : TidbCluster) : delKeysOf (v2ProxyOps tc) = [] := by
  cases htls : tc.tlsClusterEnabled <;> simp only [v2ProxyOps, htls] <;> rfl

theorem guardPairsOf_v2Proxy (tc : TidbCluster) :
    guardPairsOf (v2ProxyOps tc) = [] := by
  cases htls : tc.tlsClusterEnabled <;> simp only [v2ProxyOps, htls] <;> rfl

theorem setPairsOf_v2Proxy (tc : TidbCluster) :
    setPairsOf (v2ProxyOps tc) =
      if tc.tlsClusterEnabled then
        [("security.ca-path", .str (pathJoin tiflashCertPath serviceAccountRootCAKey)),
         ("security.cert-path", .str (pathJoin tiflashCertPath tlsCertKey)),
         ("security.key-path", .str (pathJoin tiflashCertPath tlsPrivateKeyKey))]
      else [] := by
  cases htls : tc.tlsClusterEnabled <;> simp only [v2ProxyOps, htls] <;> rfl

/-- Rerunning the current-dialect proxy cascade on the proxy document it
produced (with or without the allowed-client-name propagation applied on
top) is the identity. -/
theorem v2Proxy_absorb (tc : TidbCluster) (q : Doc)
    (hq : ∃ p0 cdoc, q = applyOps (v2ProxyOps tc) p0 ∨
          q = certCNCopy cdoc (applyOps (v2ProxyOps tc) p0)) :
    applyOps (v2ProxyOps tc) q = q := by
  obtain ⟨p0, cdoc, hq⟩ := hq
  have hp1 : ∀ k ∈ setIfNilKeysOf (v2ProxyOps tc),
      (Doc.get (applyOps (v2ProxyOps tc) p0) k).isSome := fun k hk =>
    isSome_of_setIfNil_mem hk (by rw [delKeysOf_v2Proxy]; exact List.not_mem_nil k)
  have hpres : ∀ k ∈ setIfNilKeysOf (v2ProxyOps tc), (Doc.get q k).isSome := by
    intro k hk
    rcases hq with rfl | rfl
    · exact hp1 k hk
    · exact isSome_certCNCopy (hp1 k hk)
  have hsetvals : ∀ pr ∈ setPairsOf (v2ProxyOps tc), Doc.get q pr.1 = some pr.2 := by
    intro pr hpr
    cases htls : tc.tlsClusterEnabled
    · rw [setPairsOf_v2Proxy, htls, if_neg (by simp)] at hpr
      exact absurd hpr (List.not_mem_nil pr)
    · rw [setPairsOf_v2Proxy, htls, if_pos rfl] at hpr
      have hsplitp : v2ProxyOps tc =
          [.setIfNil "log-level" (.str "info"),
           .setIfNil "server.engine-addr" (.str (tc.tiflashPodAddr "3930")),
           .setIfNil "server.status-addr" (.str (tc.listenHost ++ ":20292")),
           .setIfNil "server.advertise-status-addr" (.str (tc.tiflashPodAddr "20292"))]
          ++ proxySecurityOps := by
        rw [v2ProxyOps, htls, if_pos rfl]
      have hvals : ∀ pp ∈ setPairsOf (v2ProxyOps tc),
          Doc.get (applyOps (v2ProxyOps tc) p0) pp.1 = some pp.2 := by
        intro pp hpp
        rw [setPairsOf_v2Proxy, htls, if_pos rfl] at hpp
        rw [hsplitp, applyOps_append]
        rcases List.mem_cons.mp hpp with rfl | hpp
        · simp [proxySecurityOps, applyOps, applyOp, Doc.get_set]
        · rcases List.mem_cons.mp hpp with rfl | hpp
          · simp [proxySecurityOps, applyOps, applyOp, Doc.get_set]
          · rcases List.mem_cons.mp hpp with rfl | hpp
            · simp [proxySecurityOps, applyOps, applyOp, Doc.get_set]
            · exact absurd hpp (List.not_mem_nil pp)
      have hv1 := hvals pr (by rw [setPairsOf_v2Proxy, htls, if_pos rfl]; exact hpr)
      rcases hq with rfl | rfl
      · exact hv1
      · rw [get_certCNCopy_ne ?hne]
        · exact hv1
        case hne =>
          rcases List.mem_cons.mp hpr with rfl | hpr
          · decide
          · rcases List.mem_cons.mp hpr with rfl | hpr
            · decide
            · rcases List.mem_cons.mp hpr with rfl | hpr
              · decide
              · exact absurd hpr (List.not_mem_nil pr)
  have hcond : ∀ op ∈ v2ProxyOps tc, ExtCond q [] op := by
    refine extCond_of_kinds ?_ hsetvals ?_ ?_
    · exact fun k hk => Or.inl (hpres k hk)
    · intro k hk
      rw [delKeysOf_v2Proxy] at hk
      exact absurd hk (List.not_mem_nil k)
    · intro p_ hp_
      rw [guardPairsOf_v2Proxy] at hp_
      exact absurd hp_ (List.not_mem_nil p_)
  obtain ⟨e1, he1, hk1⟩ :=
    applyOps_extend (v2ProxyOps tc) q [] [] hcond
      (fun x hx => absurd hx (List.not_mem_nil x))
  rw [List.append_nil] at he1
  rw [he1, tail_nil_of_keys_nil hk1, List.append_nil]

theorem withConfig_tls (tc : TidbCluster) (c : Option TiFlashConfigWraper) :
    (tc.withConfig c).tlsClusterEnabled = tc.tlsClusterEnabled := rfl

theorem v2CommonOps_withConfig (tc : TidbCluster) (c : Option TiFlashConfigWraper) :
    v2CommonOps (tc.withConfig c) = v2CommonOps tc := rfl

theorem v2ProxyOps_withConfig (tc : TidbCluster) (c : Option TiFlashConfigWraper) :
    v2ProxyOps (tc.withConfig c) = v2ProxyOps tc := rfl

theorem common0_withConfig (tc : TidbCluster) (w : TiFlashConfigWraper) :
    (tc.withConfig (some w)).common0 = w.common.getD NewTiFlashCommonConfig := rfl

theorem proxy0_withConfig (tc : TidbCluster) (w : TiFlashConfigWraper) :
    (tc.withConfig (some w)).proxy0 = w.proxy.getD NewTiFlashProxyConfig := rfl

theorem configV2_common (tc : TidbCluster) :
    (getTiFlashConfigV2 tc).common = some (v2CommonDoc tc) := rfl

theorem configV2_proxy (tc : TidbCluster) :
    (getTiFlashConfigV2 tc).proxy =
      some (if tc.tlsClusterEnabled then certCNCopy (v2CommonDoc tc) (v2ProxyPre tc)
            else v2ProxyPre tc) := rfl

/-- Synthesizing twice with the current dialect equals synthesizing once. -/
theorem getTiFlashConfigV2_idem (tc : TidbCluster) :
    getTiFlashConfigV2 (tc.withConfig (some (getTiFlashConfigV2 tc))) =
      getTiFlashConfigV2 tc := by
  have hcommon : v2CommonDoc (tc.withConfig (some (getTiFlashConfigV2 tc))) =
      v2CommonDoc tc := by
    rw [v2CommonDoc, v2CommonOps_withConfig, common0_withConfig, configV2_common,
      Option.getD_some]
    exact v2Common_absorb tc tc.common0
  have hproxyPre : v2ProxyPre (tc.withConfig (some (getTiFlashConfigV2 tc))) =
      (if tc.tlsClusterEnabled then certCNCopy (v2CommonDoc tc) (v2ProxyPre tc)
       else v2ProxyPre tc) := by
    rw [v2ProxyPre, v2ProxyOps_withConfig, proxy0_withConfig, configV2_proxy,
      Option.getD_some]
    cases htls : tc.tlsClusterEnabled
    · have h := v2Proxy_absorb tc (applyOps (v2ProxyOps tc) tc.proxy0)
        ⟨tc.proxy0, [], Or.inl rfl⟩
      simpa [v2ProxyPre] using h
    · have h := v2Proxy_absorb tc (certCNCopy (v2CommonDoc tc) (v2ProxyPre tc))
        ⟨tc.proxy0, v2CommonDoc tc, Or.inr (by rw [v2ProxyPre])⟩
      simpa [v2ProxyPre] using h
  conv_lhs => rw [getTiFlashConfigV2]
  conv_rhs => rw [getTiFlashConfigV2]
  rw [TiFlashConfigWraper.mk.injEq]
  constructor
  · rw [hcommon]
  · rw [hcommon, hproxyPre, withConfig_tls]
    cases htls : tc.tlsClusterEnabled
    · simp
    · simp [certCNCopy_idem]

def writeKeysOf (ops : List Op) : List String := ops.flatMap Op.writeKeys

/-- Values written to key `k` by `SetIfNil` operations, in order. -/
def setIfNilValuesOf (ops : List Op) (k : String) : List Value :=
  ops.flatMap (fun op => match op with
    | .setIfNil k' v => if k' = k then [v] else []
    | _ => [])

theorem writeKeysOf_append (l1 l2 : List Op) :
    writeKeysOf (l1 ++ l2) = writeKeysOf l1 ++ writeKeysOf l2 := by
  simp [writeKeysOf]

theorem setIfNilValuesOf_append (l1 l2 : List Op) (k : String) :
    setIfNilValuesOf (l1 ++ l2) k = setIfNilValuesOf l1 k ++ setIfNilValuesOf l2 k := by
  simp [setIfNilValuesOf]

theorem overwriteKeysOf_append (l1 l2 : List Op) :
    overwriteKeysOf (l1 ++ l2) = overwriteKeysOf l1 ++ overwriteKeysOf l2 := by
  simp [overwriteKeysOf]

theorem mem_overwriteKeysOf {k : String} {op : Op} {ops : List Op}
    (hop : op ∈ ops) (hk : k ∈ op.overwriteKeys) : k ∈ overwriteKeysOf ops := by
  simp only [overwriteKeysOf, List.mem_flatMap]
  exact ⟨op, hop, hk⟩

theorem mem_writeKeysOf {k : String} {op : Op} {ops : List Op}
    (hop : op ∈ ops) (hk : k ∈ op.writeKeys) : k ∈ writeKeysOf ops := by
  simp only [writeKeysOf, List.mem_flatMap]
  exact ⟨op, hop, hk⟩

theorem not_writes_of_writeKeysOf {k : String} {ops : List Op}
    (h : k ∉ writeKeysOf ops) : ∀ op ∈ ops, k ∉ op.writeKeys :=
  fun op hop hk => h (mem_writeKeysOf hop hk)

theorem not_over_of_overwriteKeysOf {k : String} {ops : List Op}
    (h : k ∉ overwriteKeysOf ops) : ∀ op ∈ ops, k ∉ op.overwriteKeys :=
  fun op hop hk => h (mem_overwriteKeysOf hop hk)

/-- Value of a key written by exactly one `SetIfNil` in the cascade, never
overwritten or deleted, never targeted by a guard, starting from a document
where it is absent: the cascade installs exactly that default. -/
theorem get_applyOps_default {ops : List Op} {k : String} {v : Value} :
    ∀ {d : Doc}, setIfNilValuesOf ops k = [v] →
    (∀ op ∈ ops, k ∉ op.overwriteKeys) →
    (∀ p ∈ guardPairsOf ops, ¬ p.2 = k) →
    Doc.get d k = none →
    Doc.get (applyOps ops d) k = some v := by
  induction ops with
  | nil =>
    intro d hvals
    simp [setIfNilValuesOf] at hvals
  | cons op rest ih =>
    intro d hvals hover hguard hd
    have hoverR := fun o ho => hover o (List.mem_cons_of_mem _ ho)
    have hguardR : ∀ p ∈ guardPairsOf rest, ¬ p.2 = k := by
      intro p hp
      refine hguard p ?_
      simp only [guardPairsOf, List.flatMap_cons, List.mem_append] at hp ⊢
      exact Or.inr hp
    rw [applyOps_cons]
    match op with
    | .setIfNil k' v' =>
      by_cases hk : k' = k
      · subst hk
        have hsplit : v' = v ∧ setIfNilValuesOf rest k' = [] := by
          have : v' :: setIfNilValuesOf rest k' = [v] := by
            simpa [setIfNilValuesOf] using hvals
          exact ⟨List.head_eq_of_cons_eq this, List.tail_eq_of_cons_eq this⟩
        obtain ⟨rfl, _⟩ := hsplit
        have hset : Doc.get (applyOp d (.setIfNil k' v')) k' = some v' := by
          simp only [applyOp]
          rw [Doc.get_setIfNil, if_pos rfl, hd]
          rfl
        exact get_applyOps_of_some hset hoverR
      · have hne : ¬ k = k' := fun hh => hk hh.symm
        have hstep : Doc.get (applyOp d (.setIfNil k' v')) k = none := by
          simp only [applyOp]
          rw [Doc.get_setIfNil, if_neg hne]
          exact hd
        refine ih ?_ hoverR hguardR hstep
        simpa [setIfNilValuesOf, hk] using hvals
    | .set k' v0 =>
      have hne : ¬ k = k' := by
        have := hover _ (List.mem_cons_self _ _)
        simpa [Op.overwriteKeys] using this
      have hstep : Doc.get (applyOp d (.set k' v0)) k = none := by
        simp only [applyOp]
        rw [Doc.get_set, if_neg hne]
        exact hd
      refine ih ?_ hoverR hguardR hstep
      simpa [setIfNilValuesOf] using hvals
    | .del k' =>
      have hstep : Doc.get (applyOp d (.del k')) k = none := by
        simp only [applyOp]
        rw [Doc.get_del]
        by_cases hkk : k = k'
        · rw [if_pos hkk]
        · rw [if_neg hkk]
          exact hd
      refine ih ?_ hoverR hguardR hstep
      simpa [setIfNilValuesOf] using hvals
    | .guard2 k1 k2 v0 =>
      have hne : ¬ k = k2 := by
        have := hguard (k1, k2) (by simp [guardPairsOf])
        exact fun hh => this hh.symm
      have hstep : Doc.get (applyOp d (.guard2 k1 k2 v0)) k = none := by
        simp only [applyOp]
        split
        · rw [Doc.get_set, if_neg hne]
          exact hd
        · exact hd
      refine ih ?_ hoverR hguardR hstep
      simpa [setIfNilValuesOf] using hvals

theorem delKeysOf_legacyPath (tc : TidbCluster) : delKeysOf (legacyPathOps tc) = [] := by
  by_cases h : tc.storageClaims = 0
  · rw [legacyPathOps, if_pos h]
    rfl
  · rw [legacyPathOps, if_neg h]
    rfl

theorem setPairsOf_legacyPath (tc : TidbCluster) : setPairsOf (legacyPathOps tc) = [] := by
  by_cases h : tc.storageClaims = 0
  · rw [legacyPathOps, if_pos h]
    rfl
  · rw [legacyPathOps, if_neg h]
    rfl

theorem guardPairsOf_legacyPath (tc : TidbCluster) :
    ∀ p ∈ guardPairsOf (legacyPathOps tc), p = ("path", "path") := by
  intro p hp
  by_cases h : tc.storageClaims = 0
  · rw [legacyPathOps, if_pos h] at hp
    exact absurd hp (List.not_mem_nil p)
  · rw [legacyPathOps, if_neg h] at hp
    simpa [guardPairsOf] using hp

theorem delKeysOf_legacyMain (tc : TidbCluster) : delKeysOf (legacyMainOps tc) = [] := rfl

theorem setPairsOf_legacyMain (tc : TidbCluster) : setPairsOf (legacyMainOps tc) = [] := rfl

theorem guardPairsOf_legacyMain (tc : TidbCluster) :
    guardPairsOf (legacyMainOps tc) = [] := rfl

theorem delKeysOf_legacyCommon (tc : TidbCluster) :
    delKeysOf (legacyCommonDefaultOps tc) = [] := by
  rw [legacyCommonDefaultOps, delKeysOf_append, delKeysOf_legacyPath, delKeysOf_legacyMain]
  rfl

theorem setPairsOf_legacyCommon (tc : TidbCluster) :
    setPairsOf (legacyCommonDefaultOps tc) = [] := by
  rw [legacyCommonDefaultOps, setPairsOf_append, setPairsOf_legacyPath, setPairsOf_legacyMain]
  rfl

theorem guardPairsOf_legacyCommon (tc : TidbCluster) :
    ∀ p ∈ guardPairsOf (legacyCommonDefaultOps tc), p = ("path", "path") := by
  intro p hp
  rw [legacyCommonDefaultOps, guardPairsOf_append, guardPairsOf_legacyMain,
    List.append_nil] at hp
  exact guardPairsOf_legacyPath tc p hp

theorem delKeysOf_legacyProxy (tc : TidbCluster) :
    delKeysOf (legacyProxyDefaultOps tc) = [] := rfl

theorem setPairsOf_legacyProxy (tc : TidbCluster) :
    setPairsOf (legacyProxyDefaultOps tc) = [] := rfl

theorem guardPairsOf_legacyProxy (tc : TidbCluster) :
    guardPairsOf (legacyProxyDefaultOps tc) = [] := rfl

theorem delKeysOf_commonSec : delKeysOf commonSecurityOps = [] := rfl

theorem setIfNilKeysOf_commonSec : setIfNilKeysOf commonSecurityOps = [] := rfl

theorem guardPairsOf_commonSec : guardPairsOf commonSecurityOps = [] := rfl

theorem setPairsOf_commonSec :
    setPairsOf commonSecurityOps =
      [("security.ca_path", .str (pathJoin tiflashCertPath serviceAccountRootCAKey)),
       ("security.cert_path", .str (pathJoin tiflashCertPath tlsCertKey)),
       ("security.key_path", .str (pathJoin tiflashCertPath tlsPrivateKeyKey))] := rfl

theorem delKeysOf_proxySec : delKeysOf proxySecurityOps = [] := rfl

theorem setIfNilKeysOf_proxySec : setIfNilKeysOf proxySecurityOps = [] := rfl

theorem guardPairsOf_proxySec : guardPairsOf proxySecurityOps = [] := rfl

theorem setPairsOf_proxySec :
    setPairsOf proxySecurityOps =
      [("security.ca-path", .str (pathJoin tiflashCertPath serviceAccountRootCAKey)),
       ("security.cert-path", .str (pathJoin tiflashCertPath tlsCertKey)),
       ("security.key-path", .str (pathJoin tiflashCertPath tlsPrivateKeyKey))] := rfl

theorem Doc.get_none_of_keys {e : Doc} {D : List String} {k : String}
    (he : ∀ x ∈ e, x.1 ∈ D) (hk : k ∉ D) : Doc.get e k = none := by
  induction e with
  | nil => rfl
  | cons x xs ih =>
    obtain ⟨k0, v0⟩ := x
    have h0 : k0 ∈ D := he (k0, v0) (List.mem_cons_self _ _)
    have hne : ¬ k = k0 := fun hh => hk (hh ▸ h0)
    rw [Doc.get, if_neg hne]
    exact ih (fun y hy => he y (List.mem_cons_of_mem _ hy))

theorem get_append_of_keys {d e : Doc} {D : List String} {k : String}
    (he : ∀ x ∈ e, x.1 ∈ D) (hk : k ∉ D) : Doc.get (d ++ e) k = Doc.get d k := by
  rw [Doc.get_append, Doc.get_none_of_keys he hk]
  cases Doc.get d k <;> rfl

theorem isSome_del_del {X : Doc} {a b k : String} (ha : ¬ k = a) (hb : ¬ k = b)
    (h : (Doc.get X k).isSome) :
    (Doc.get (Doc.del (Doc.del X a) b) k).isSome := by
  rw [Doc.get_del, if_neg hb, Doc.get_del, if_neg ha]
  exact h

theorem get_del_del_outer (X : Doc) (a b : String) :
    Doc.get (Doc.del (Doc.del X a) b) b = none := by
  rw [Doc.get_del, if_pos rfl]

theorem get_del_del_inner (X : Doc) (a b : String) (hab : ¬ a = b) :
    Doc.get (Doc.del (Doc.del X a) b) a = none := by
  rw [Doc.get_del, if_neg hab, Doc.get_del, if_pos rfl]

theorem get_del_del_ne {X : Doc} {a b k : String} (ha : ¬ k = a) (hb : ¬ k = b) :
    Doc.get (Doc.del (Doc.del X a) b) k = Doc.get X k := by
  rw [Doc.get_del, if_neg hb, Doc.get_del, if_neg ha]

theorem legacyOps_withConfig (tc : TidbCluster) (c : Option TiFlashConfigWraper) :
    legacyCommonDefaultOps (tc.withConfig c) = legacyCommonDefaultOps tc := rfl

theorem legacyProxyOps_withConfig (tc : TidbCluster) (c : Option TiFlashConfigWraper) :
    legacyProxyDefaultOps (tc.withConfig c) = legacyProxyDefaultOps tc := rfl

theorem legacyCommonPre_withConfig (tc : TidbCluster) (w : TiFlashConfigWraper) :
    legacyCommonPre (tc.withConfig (some w)) =
      applyOps (legacyCommonDefaultOps tc) (w.common.getD NewTiFlashCommonConfig) := rfl

theorem legacyProxyPre_withConfig (tc : TidbCluster) (w : TiFlashConfigWraper) :
    legacyProxyPre (tc.withConfig (some w)) =
      applyOps (legacyProxyDefaultOps tc) (w.proxy.getD NewTiFlashProxyConfig) := rfl

/-- Membership of the `path` default in the legacy cascade. -/
theorem path_mem_legacy (tc : TidbCluster) :
    "path" ∈ setIfNilKeysOf (legacyCommonDefaultOps tc) :=
  @mem_setIfNilKeysOf "path" (.str "/data0/db") (legacyCommonDefaultOps tc)
    (by rw [legacyCommonDefaultOps]
        refine List.mem_append_right _ ?_
        simp [legacyMainOps])

/-- Rerunning the legacy default cascade (no TLS) on the final document
appends only re-creations of the two deleted secure-port defaults. -/
theorem legacyCommon_rerun_noTls (tc : TidbCluster) (c0 : Doc)
    (hc : c0 = Doc.del (Doc.del (legacyCommonPre tc) "https_port") "tcp_port_secure") :
    ∃ e1, applyOps (legacyCommonDefaultOps tc) c0 = c0 ++ e1
      ∧ ∀ x ∈ e1, x.1 ∈ ["https_port", "tcp_port_secure"] := by
  have hpres : ∀ k ∈ setIfNilKeysOf (legacyCommonDefaultOps tc),
      k ∉ ["https_port", "tcp_port_secure"] → (Doc.get c0 k).isSome := by
    intro k hk hkD
    have h1 : (Doc.get (legacyCommonPre tc) k).isSome :=
      isSome_of_setIfNil_mem hk
        (by rw [delKeysOf_legacyCommon]; exact List.not_mem_nil k)
    have hne1 : ¬ k = "https_port" := fun hh => hkD (by rw [hh]; simp)
    have hne2 : ¬ k = "tcp_port_secure" := fun hh => hkD (by rw [hh]; simp)
    rw [hc]
    exact isSome_del_del hne1 hne2 h1
  have hcond : ∀ op ∈ legacyCommonDefaultOps tc,
      ExtCond c0 ["https_port", "tcp_port_secure"] op := by
    refine extCond_of_kinds ?_ ?_ ?_ ?_
    · intro k hk
      by_cases hkD : k ∈ ["https_port", "tcp_port_secure"]
      · exact Or.inr hkD
      · exact Or.inl (hpres k hk hkD)
    · intro p hp
      rw [setPairsOf_legacyCommon] at hp
      exact absurd hp (List.not_mem_nil p)
    · intro k hk
      rw [delKeysOf_legacyCommon] at hk
      exact absurd hk (List.not_mem_nil k)
    · intro p hp
      rw [guardPairsOf_legacyCommon tc p hp]
      exact Or.inl (hpres "path" (path_mem_legacy tc) (by decide))
  obtain ⟨e1, he1, hk1⟩ :=
    applyOps_extend (legacyCommonDefaultOps tc) c0 ["https_port", "tcp_port_secure"] []
      hcond (fun x hx => absurd hx (List.not_mem_nil x))
  rw [List.append_nil] at he1
  exact ⟨e1, he1, hk1⟩

/-- Rerunning the legacy default cascade and the TLS security writes on the
final TLS document appends only re-creations of the two deleted plaintext
ports. -/
theorem legacyCommonSec_rerun (tc : TidbCluster) (c0 : Doc)
    (hc : c0 = Doc.del (Doc.del (legacyCommonSec tc) "http_port") "tcp_port") :
    ∃ e2, applyOps commonSecurityOps (applyOps (legacyCommonDefaultOps tc) c0) = c0 ++ e2
      ∧ ∀ x ∈ e2, x.1 ∈ ["http_port", "tcp_port"] := by
  have hpres : ∀ k ∈ setIfNilKeysOf (legacyCommonDefaultOps tc),
      k ∉ ["http_port", "tcp_port"] → (Doc.get c0 k).isSome := by
    intro k hk hkD
    have h0 : (Doc.get (legacyCommonPre tc) k).isSome :=
      isSome_of_setIfNil_mem hk
        (by rw [delKeysOf_legacyCommon]; exact List.not_mem_nil k)
    have h1 : (Doc.get (legacyCommonSec tc) k).isSome := by
      rw [legacyCommonSec]
      exact isSome_applyOps h0 (by rw [delKeysOf_commonSec]; exact List.not_mem_nil k)
    have hne1 : ¬ k = "http_port" := fun hh => hkD (by rw [hh]; simp)
    have hne2 : ¬ k = "tcp_port" := fun hh => hkD (by rw [hh]; simp)
    rw [hc]
    exact isSome_del_del hne1 hne2 h1
  have hsec : ∀ pr ∈ setPairsOf commonSecurityOps, Doc.get c0 pr.1 = some pr.2 := by
    have hvals : ∀ pr ∈ setPairsOf commonSecurityOps,
        Doc.get (legacyCommonSec tc) pr.1 = some pr.2 := by
      intro pr hpr
      rw [setPairsOf_commonSec] at hpr
      rcases List.mem_cons.mp hpr with rfl | hpr
      · rw [legacyCommonSec]
        simp [commonSecurityOps, applyOps, applyOp, Doc.get_set]
      · rcases List.mem_cons.mp hpr with rfl | hpr
        · rw [legacyCommonSec]
          simp [commonSecurityOps, applyOps, applyOp, Doc.get_set]
        · rcases List.mem_cons.mp hpr with rfl | hpr
          · rw [legacyCommonSec]
            simp [commonSecurityOps, applyOps, applyOp, Doc.get_set]
          · exact absurd hpr (List.not_mem_nil pr)
    intro pr hpr
    have hne1 : ¬ pr.1 = "http_port" := by
      rw [setPairsOf_commonSec] at hpr
      rcases List.mem_cons.mp hpr with rfl | hpr
      · decide
      · rcases List.mem_cons.mp hpr with rfl | hpr
        · decide
        · rcases List.mem_cons.mp hpr with rfl | hpr
          · decide
          · exact absurd hpr (List.not_mem_nil pr)
    have hne2 : ¬ pr.1 = "tcp_port" := by
      rw [setPairsOf_commonSec] at hpr
      rcases List.mem_cons.mp hpr with rfl | hpr
      · decide
      · rcases List.mem_cons.mp hpr with rfl | hpr
        · decide
        · rcases List.mem_cons.mp hpr with rfl | hpr
          · decide
          · exact absurd hpr (List.not_mem_nil pr)
    rw [hc, get_del_del_ne hne1 hne2]
    exact hvals pr hpr
  have hcond : ∀ op ∈ legacyCommonDefaultOps tc,
      ExtCond c0 ["http_port", "tcp_port"] op := by
    refine extCond_of_kinds ?_ ?_ ?_ ?_
    · intro k hk
      by_cases hkD : k ∈ ["http_port", "tcp_port"]
      · exact Or.inr hkD
      · exact Or.inl (hpres k hk hkD)
    · intro p hp
      rw [setPairsOf_legacyCommon] at hp
      exact absurd hp (List.not_mem_nil p)
    · intro k hk
      rw [delKeysOf_legacyCommon] at hk
      exact absurd hk (List.not_mem_nil k)
    · intro p hp
      rw [guardPairsOf_legacyCommon tc p hp]
      exact Or.inl (hpres "path" (path_mem_legacy tc) (by decide))
  obtain ⟨e1, he1, hk1⟩ :=
    applyOps_extend (legacyCommonDefaultOps tc) c0 ["http_port", "tcp_port"] []
      hcond (fun x hx => absurd hx (List.not_mem_nil x))
  rw [List.append_nil] at he1
  have hcond2 : ∀ op ∈ commonSecurityOps, ExtCond c0 ["http_port", "tcp_port"] op := by
    refine extCond_of_kinds ?_ hsec ?_ ?_
    · intro k hk
      rw [setIfNilKeysOf_commonSec] at hk
      exact absurd hk (List.not_mem_nil k)
    · intro k hk
      rw [delKeysOf_commonSec] at hk
      exact absurd hk (List.not_mem_nil k)
    · intro p hp
      rw [guardPairsOf_commonSec] at hp
      exact absurd hp (List.not_mem_nil p)
  obtain ⟨e2, he2, hk2⟩ :=
    applyOps_extend commonSecurityOps c0 ["http_port", "tcp_port"] e1 hcond2 hk1
  rw [he1]
  exact ⟨e2, he2, hk2⟩

/-- Rerunning the legacy proxy default cascade on the proxy document it
produced (with or without the TLS security writes and the
allowed-client-name propagation applied on top) is the identity. -/
theorem legacyProxy_absorb (tc : TidbCluster) (q : Doc)
    (hq : q = legacyProxyPre tc ∨
          q = certCNCopy (legacyCommonSec tc)
                (applyOps proxySecurityOps (legacyProxyPre tc))) :
    applyOps (legacyProxyDefaultOps tc) q = q := by
  have hpres : ∀ k ∈ setIfNilKeysOf (legacyProxyDefaultOps tc), (Doc.get q k).isSome := by
    intro k hk
    have h1 : (Doc.get (legacyProxyPre tc) k).isSome := by
      rw [legacyProxyPre]
      exact isSome_of_setIfNil_mem hk
        (by rw [delKeysOf_legacyProxy]; exact List.not_mem_nil k)
    rcases hq with rfl | rfl
    · exact h1
    · exact isSome_certCNCopy
        (isSome_applyOps h1 (by rw [delKeysOf_proxySec]; exact List.not_mem_nil k))
  have hcond : ∀ op ∈ legacyProxyDefaultOps tc, ExtCond q [] op := by
    refine extCond_of_kinds (fun k hk => Or.inl (hpres k hk)) ?_ ?_ ?_
    · intro p hp
      rw [setPairsOf_legacyProxy] at hp
      exact absurd hp (List.not_mem_nil p)
    · intro k hk
      rw [delKeysOf_legacyProxy] at hk
      exact absurd hk (List.not_mem_nil k)
    · intro p hp
      rw [guardPairsOf_legacyProxy] at hp
      exact absurd hp (List.not_mem_nil p)
  obtain ⟨e1, he1, hk1⟩ :=
    applyOps_extend (legacyProxyDefaultOps tc) q [] [] hcond
      (fun x hx => absurd hx (List.not_mem_nil x))
  rw [List.append_nil] at he1
  rw [he1, tail_nil_of_keys_nil hk1, List.append_nil]

/-- Rerunning the legacy proxy TLS security writes on the final proxy
document is the identity. -/
theorem legacyProxySec_absorb (tc : TidbCluster) (q : Doc)
    (hq : q = certCNCopy (legacyCommonSec tc)
                (applyOps proxySecurityOps (legacyProxyPre tc))) :
    applyOps proxySecurityOps q = q := by
  have hvals : ∀ pr ∈ setPairsOf proxySecurityOps,
      Doc.get (applyOps proxySecurityOps (legacyProxyPre tc)) pr.1 = some pr.2 := by
    intro pr hpr
    rw [setPairsOf_proxySec] at hpr
    rcases List.mem_cons.mp hpr with rfl | hpr
    · simp [proxySecurityOps, applyOps, applyOp, Doc.get_set]
    · rcases List.mem_cons.mp hpr with rfl | hpr
      · simp [proxySecurityOps, applyOps, applyOp, Doc.get_set]
      · rcases List.mem_cons.mp hpr with rfl | hpr
        · simp [proxySecurityOps, applyOps, applyOp, Doc.get_set]
        · exact absurd hpr (List.not_mem_nil pr)
  have hsetq : ∀ pr ∈ setPairsOf proxySecurityOps, Doc.get q pr.1 = some pr.2 := by
    intro pr hpr
    have hne : ¬ pr.1 = "security.cert-allowed-cn" := by
      rw [setPairsOf_proxySec] at hpr
      rcases List.mem_cons.mp hpr with rfl | hpr
      · decide
      · rcases List.mem_cons.mp hpr with rfl | hpr
        · decide
        · rcases List.mem_cons.mp hpr with rfl | hpr
          · decide
          · exact absurd hpr (List.not_mem_nil pr)
    rw [hq, get_certCNCopy_ne hne]
    exact hvals pr hpr
  have hcond : ∀ op ∈ proxySecurityOps, ExtCond q [] op := by
    refine extCond_of_kinds ?_ hsetq ?_ ?_
    · intro k hk
      rw [setIfNilKeysOf_proxySec] at hk
      exact absurd hk (List.not_mem_nil k)
    · intro k hk
      rw [delKeysOf_proxySec] at hk
      exact absurd hk (List.not_mem_nil k)
    · intro p hp
      rw [guardPairsOf_proxySec] at hp
      exact absurd hp (List.not_mem_nil p)
  obtain ⟨e1, he1, hk1⟩ :=
    applyOps_extend proxySecurityOps q [] [] hcond
      (fun x hx => absurd hx (List.not_mem_nil x))
  rw [List.append_nil] at he1
  rw [he1, tail_nil_of_keys_nil hk1, List.append_nil]

theorem getTiFlashConfig_tlsEq (tc : TidbCluster) (h : tc.tlsClusterEnabled = true) :
    getTiFlashConfig tc =
      ⟨some (Doc.del (Doc.del (legacyCommonSec tc) "http_port") "tcp_port"),
       some (certCNCopy (legacyCommonSec tc)
         (applyOps proxySecurityOps (legacyProxyPre tc)))⟩ := by
  rw [getTiFlashConfig, if_pos h]

theorem getTiFlashConfig_noTlsEq (tc : TidbCluster) (h : tc.tlsClusterEnabled = false) :
    getTiFlashConfig tc =
      ⟨some (Doc.del (Doc.del (legacyCommonPre tc) "https_port") "tcp_port_secure"),
       some (legacyProxyPre tc)⟩ := by
  rw [getTiFlashConfig, if_neg (by rw [h]; simp)]

/-- Synthesizing twice with the legacy dialect equals synthesizing once. -/
theorem getTiFlashConfig_idem (tc : TidbCluster) :
    getTiFlashConfig (tc.withConfig (some (getTiFlashConfig tc))) =
      getTiFlashConfig tc := by
  cases htls : tc.tlsClusterEnabled
  case false =>
    rw [getTiFlashConfig_noTlsEq tc htls]
    rw [getTiFlashConfig_noTlsEq _ (by rw [withConfig_tls]; exact htls)]
    rw [TiFlashConfigWraper.mk.injEq, Option.some.injEq, Option.some.injEq]
    have hpre2 : legacyCommonPre (tc.withConfig (some
        ⟨some (Doc.del (Doc.del (legacyCommonPre tc) "https_port") "tcp_port_secure"),
         some (legacyProxyPre tc)⟩)) =
        applyOps (legacyCommonDefaultOps tc)
          (Doc.del (Doc.del (legacyCommonPre tc) "https_port") "tcp_port_secure") := by
      rw [legacyCommonPre_withConfig]
      rfl
    obtain ⟨e1, he1, hk1⟩ := legacyCommon_rerun_noTls tc _ rfl
    constructor
    · have hdel1 : Doc.del (Doc.del e1 "https_port") "tcp_port_secure" = [] :=
        Doc.del_del_of_keys (fun x hx => by simpa using hk1 x hx)
      rw [hpre2, he1, Doc.del_append, Doc.del_append,
        Doc.del_of_get_none
          (get_del_del_inner (legacyCommonPre tc) "https_port" "tcp_port_secure" (by decide)),
        Doc.del_of_get_none
          (get_del_del_outer (legacyCommonPre tc) "https_port" "tcp_port_secure"),
        hdel1, List.append_nil]
    · rw [legacyProxyPre_withConfig]
      exact legacyProxy_absorb tc _ (Or.inl rfl)
  case true =>
    rw [getTiFlashConfig_tlsEq tc htls]
    rw [getTiFlashConfig_tlsEq _ (by rw [withConfig_tls]; exact htls)]
    rw [TiFlashConfigWraper.mk.injEq, Option.some.injEq, Option.some.injEq]
    obtain ⟨e2, he2, hk2⟩ := legacyCommonSec_rerun tc _ rfl
    have hpre2 : legacyCommonPre (tc.withConfig (some
        ⟨some (Doc.del (Doc.del (legacyCommonSec tc) "http_port") "tcp_port"),
         some (certCNCopy (legacyCommonSec tc)
           (applyOps proxySecurityOps (legacyProxyPre tc)))⟩)) =
        applyOps (legacyCommonDefaultOps tc)
          (Doc.del (Doc.del (legacyCommonSec tc) "http_port") "tcp_port") := by
      rw [legacyCommonPre_withConfig]
      rfl
    have hsec2 : legacyCommonSec (tc.withConfig (some
        ⟨some (Doc.del (Doc.del (legacyCommonSec tc) "http_port") "tcp_port"),
         some (certCNCopy (legacyCommonSec tc)
           (applyOps proxySecurityOps (legacyProxyPre tc)))⟩)) =
        Doc.del (Doc.del (legacyCommonSec tc) "http_port") "tcp_port" ++ e2 := by
      rw [legacyCommonSec, hpre2]
      exact he2
    have hproxypre2 : legacyProxyPre (tc.withConfig (some
        ⟨some (Doc.del (Doc.del (legacyCommonSec tc) "http_port") "tcp_port"),
         some (certCNCopy (legacyCommonSec tc)
           (applyOps proxySecurityOps (legacyProxyPre tc)))⟩)) =
        certCNCopy (legacyCommonSec tc)
          (applyOps proxySecurityOps (legacyProxyPre tc)) := by
      rw [legacyProxyPre_withConfig]
      exact legacyProxy_absorb tc _ (Or.inr rfl)
    constructor
    · have hdel2 : Doc.del (Doc.del e2 "http_port") "tcp_port" = [] :=
        Doc.del_del_of_keys (fun x hx => by simpa using hk2 x hx)
      rw [hsec2, Doc.del_append, Doc.del_append,
        Doc.del_of_get_none
          (get_del_del_inner (legacyCommonSec tc) "http_port" "tcp_port" (by decide)),
        Doc.del_of_get_none
          (get_del_del_outer (legacyCommonSec tc) "http_port" "tcp_port"),
        hdel2, List.append_nil]
    · rw [hproxypre2, hsec2, legacyProxySec_absorb tc _ rfl]
      rw [certCNCopy_congr _ (get_append_of_keys hk2 (by decide))]
      rw [certCNCopy_congr _ (get_del_del_ne (by decide) (by decide))]
      exact certCNCopy_idem _ _

/-- Splits a character list on a separator. -/
def splitOnChar (sep : Char) : List Char → List Char → List (List Char)
  | [], acc => [acc.reverse]
  | c :: cs, acc =>
    if c = sep then acc.reverse :: splitOnChar sep cs []
    else splitOnChar sep cs (c :: acc)

def parseNatAux : List Char → Nat → Option Nat
  | [], acc => some acc
  | c :: cs, acc =>
    if c.isDigit then parseNatAux cs (acc * 10 + (c.toNat - 48)) else none

/-- Parses a nonempty all-digit character list as a natural number. -/
def parseNat? : List Char → Option Nat
  | [] => none
  | cs => parseNatAux cs 0

/-- Modelled from the spec: the semantic-version parse used by
`cmpver.NewConstraint(GreaterOrEqual, "v5.4.0").Check` (spec §4.5), which
lives outside `src/`.  Accepts an optional leading `v` and three
dot-separated numeric components; anything else fails to parse. -/
def parseSemver (s : String) : Option (Nat × Nat × Nat) :=
  let cs := match s.data with
    | 'v' :: rest => rest
    | cs => cs
  match splitOnChar '.' cs [] with
  | [a, b, c] =>
    match parseNat? a, parseNat? b, parseNat? c with
    | some x, some y, some z => some (x, y, z)
    | _, _, _ => none
  | _ => none

/-- Lexicographic comparison against the 5.4.0 threshold. -/
def semverGE540 (v : Nat × Nat × Nat) : Bool :=
  decide (5 < v.1) || (decide (v.1 = 5) && (decide (4 < v.2.1) || decide (v.2.1 = 4)))

/-- Modelled from the spec: `tiflashEqualOrGreaterThanV540.Check` — errors
when the version fails to parse, otherwise compares against 5.4.0. -/
def checkV540 (s : String) : Except Unit Bool :=
  match parseSemver s with
  | some v => .ok (semverGE540 v)
  | none => .error ()

/-- `GetTiFlashConfig` (lines 111-117): dispatches to the current dialect
only when the check succeeds and returns true. -/
def GetTiFlashConfig (tc : TidbCluster) : TiFlashConfigWraper :=
  match checkV540 tc.tiflashVersion with
  | .ok true => getTiFlashConfigV2 tc
  | _ => getTiFlashConfig tc

/-!  The log-tailing sidecar builder (lines 42-109).  The container's
resource requirements are an opaque pass-through of an external Kubernetes
type and are omitted. -/

structure Container where
  name : String
  image : String
  pullPolicy : String
  volumeMounts : List (String × String)
  command : List String
  deriving DecidableEq, Repr

/-- `AsString` on a stored value: the TypeMismatch failure mode. -/
def Value.asString : Value → Except Unit String
  | .str s => .ok s
  | _ => .error ()

/-- `config.Common.Get(k).AsString()`. -/
def getAsString (d : Doc) (k : String) : Except Unit String :=
  match Doc.get d k with
  | some v => v.asString
  | none => .error ()

/-- `buildSidecarContainer` (lines 75-109). -/
def buildSidecarContainer (name path image pullPolicy : String) : Container :=
  let splitPath := path.splitOn "/"
  let cmd := ["sh", "-c", "touch " ++ path ++ "; tail -n0 -F " ++ path ++ ";"]
  if 3 ≤ splitPath.length then
    let vol := splitPath.getD 1 ""
    ⟨name, image, pullPolicy, [(vol, "/" ++ vol)], cmd⟩
  else
    ⟨name, image, pullPolicy, [], cmd⟩

/-- `setTiFlashLogConfigDefault` (lines 300-307). -/
def logDefaultOps : List Op :=
  [.setIfNil "flash.flash_cluster.log" (.str defaultClusterLog),
   .setIfNil "logger.errorlog" (.str defaultErrorLog),
   .setIfNil "logger.log" (.str defaultServerLog)]

theorem withConfig_version (tc : TidbCluster) (c : Option TiFlashConfigWraper) :
    (tc.withConfig c).tiflashVersion = tc.tiflashVersion := rfl

/-- The dialect selector: true exactly when the version check succeeds and
returns true (line 113). -/
def selectsV2 (v : String) : Bool :=
  match checkV540 v with
  | .ok true => true
  | _ => false

/-- `GetTiFlashConfig` dispatches to the current dialect exactly when the
version check succeeds and returns true. -/
theorem GetTiFlashConfig_eq (tc : TidbCluster) :
    GetTiFlashConfig tc =
      (if selectsV2 tc.tiflashVersion then getTiFlashConfigV2 tc
       else getTiFlashConfig tc) := by
  cases hchk : checkV540 tc.tiflashVersion with
  | error e => simp [GetTiFlashConfig, selectsV2, hchk]
  | ok b => cases b <;> simp [GetTiFlashConfig, selectsV2, hchk]

/-- `buildTiFlashSidecarContainers` (lines 42-73). -/
def buildTiFlashSidecarContainers (tc : TidbCluster) : Except Unit (List Container) :=
  let config := tc.config.getD NewTiFlashConfig
  let common0 := config.common.getD NewTiFlashCommonConfig
  let common := applyOps logDefaultOps common0
  match getAsString common "logger.log" with
  | .error e => .error e
  | .ok p1 =>
    match getAsString common "logger.errorlog" with
    | .error e => .error e
    | .ok p2 =>
      match getAsString common "flash.flash_cluster.log" with
      | .error e => .error e
      | .ok p3 =>
        .ok [buildSidecarContainer "serverlog" p1 tc.helperImage tc.helperImagePullPolicy,
             buildSidecarContainer "errorlog" p2 tc.helperImage tc.helperImagePullPolicy,
             buildSidecarContainer "clusterlog" p3 tc.helperImage tc.helperImagePullPolicy]

/-- The engine document of a synthesized pair. -/
def commonDoc (w : TiFlashConfigWraper) : Doc := w.common.getD []

/-- The proxy document of a synthesized pair. -/
def proxyDoc (w : TiFlashConfigWraper) : Doc := w.proxy.getD []

theorem commonDoc_v2 (tc : TidbCluster) :
    commonDoc (getTiFlashConfigV2 tc) = applyOps (v2CommonOps tc) tc.common0 := by
  rw [commonDoc, configV2_common, Option.getD_some, v2CommonDoc]

theorem commonDoc_legacy_tls (tc : TidbCluster) (h : tc.tlsClusterEnabled = true) :
    commonDoc (getTiFlashConfig tc) =
      Doc.del (Doc.del (legacyCommonSec tc) "http_port") "tcp_port" := by
  rw [getTiFlashConfig_tlsEq tc h]
  rfl

theorem commonDoc_legacy_noTls (tc : TidbCluster) (h : tc.tlsClusterEnabled = false) :
    commonDoc (getTiFlashConfig tc) =
      Doc.del (Doc.del (legacyCommonPre tc) "https_port") "tcp_port_secure" := by
  rw [getTiFlashConfig_noTlsEq tc h]
  rfl

theorem guardPairsOf_iteNil {l : List Op} (b : Bool) (h : guardPairsOf l = []) :
    guardPairsOf (if b then l else []) = [] := by
  cases b
  · rfl
  · exact h

theorem overwriteKeysOf_iteNil {l : List Op} (b : Bool) (h : overwriteKeysOf l = []) :
    overwriteKeysOf (if b then l else []) = [] := by
  cases b
  · rfl
  · exact h

theorem sifValsOf_iteNil {l : List Op} {k : String} (b : Bool)
    (h : setIfNilValuesOf l k = []) :
    setIfNilValuesOf (if b then l else []) k = [] := by
  cases b
  · rfl
  · exact h

theorem writeKeysOf_iteNil {l : List Op} (b : Bool) (h : writeKeysOf l = []) :
    writeKeysOf (if b then l else []) = [] := by
  cases b
  · rfl
  · exact h

theorem overwriteKeysOf_legacyMain (tc : TidbCluster) :
    overwriteKeysOf (legacyMainOps tc) = [] := rfl

theorem overwriteKeysOf_legacyPath (tc : TidbCluster) :
    overwriteKeysOf (legacyPathOps tc) = [] := by
  by_cases h : tc.storageClaims = 0
  · rw [legacyPathOps, if_pos h]
    rfl
  · rw [legacyPathOps, if_neg h]
    rfl

theorem overwriteKeysOf_legacyCommon (tc : TidbCluster) :
    overwriteKeysOf (legacyCommonDefaultOps tc) = [] := by
  rw [legacyCommonDefaultOps, overwriteKeysOf_append, overwriteKeysOf_legacyPath,
    overwriteKeysOf_legacyMain]
  rfl

theorem overwriteKeysOf_commonSec :
    overwriteKeysOf commonSecurityOps =
      ["security.ca_path", "security.cert_path", "security.key_path"] := rfl

theorem overwriteKeysOf_v2Base (tc : TidbCluster) :
    overwriteKeysOf (v2BaseOps tc) = [] := rfl

theorem overwriteKeysOf_v2Tls :
    overwriteKeysOf (v2TlsMainOps ++ v2TlsDelOps) =
      ["security.ca_path", "security.cert_path", "security.key_path",
       "http_port", "tcp_port"] := rfl

theorem overwriteKeysOf_v2Common (tc : TidbCluster) :
    overwriteKeysOf (v2CommonOps tc) =
      if tc.tlsClusterEnabled then
        ["security.ca_path", "security.cert_path", "security.key_path",
         "http_port", "tcp_port"]
      else [] := by
  cases htls : tc.tlsClusterEnabled <;>
    · simp only [v2CommonOps, htls]
      rw [overwriteKeysOf_append, overwriteKeysOf_append, overwriteKeysOf_v2Base,
        @overwriteKeysOf_iteNil v2IPv6Ops tc.preferIPv6 rfl]
      rfl

theorem guardPairsOf_v2Common (tc : TidbCluster) :
    guardPairsOf (v2CommonOps tc) =
      [("path", "storage.main.dir"), ("raft.kvstore_path", "storage.raft.dir")] := by
  rw [v2CommonOps, guardPairsOf_append, guardPairsOf_append, guardPairsOf_v2Base,
    @guardPairsOf_iteNil v2IPv6Ops tc.preferIPv6 rfl,
    @guardPairsOf_iteNil (v2TlsMainOps ++ v2TlsDelOps) tc.tlsClusterEnabled rfl]
  rfl

theorem sifVals_legacyPath (tc : TidbCluster) (k : String) :
    setIfNilValuesOf (legacyPathOps tc) k = [] := by
  by_cases h : tc.storageClaims = 0
  · rw [legacyPathOps, if_pos h]
    rfl
  · rw [legacyPathOps, if_neg h]
    rfl

theorem sifVals_legacyMain_pd (tc : TidbCluster) :
    setIfNilValuesOf (legacyMainOps tc) "raft.pd_addr" = [.str tc.pdAddr] := rfl

theorem sifVals_legacyCommon_pd (tc : TidbCluster) :
    setIfNilValuesOf (legacyCommonDefaultOps tc) "raft.pd_addr" = [.str tc.pdAddr] := by
  rw [legacyCommonDefaultOps, setIfNilValuesOf_append, sifVals_legacyPath,
    sifVals_legacyMain_pd]
  rfl

theorem sifVals_v2Common_pd (tc : TidbCluster) :
    setIfNilValuesOf (v2CommonOps tc) "raft.pd_addr" = [.str tc.pdAddr] := by
  rw [v2CommonOps, setIfNilValuesOf_append, setIfNilValuesOf_append,
    @sifValsOf_iteNil v2IPv6Ops "raft.pd_addr" tc.preferIPv6 rfl,
    @sifValsOf_iteNil (v2TlsMainOps ++ v2TlsDelOps) "raft.pd_addr" tc.tlsClusterEnabled rfl]
  rfl

/-- The placement-service address as claim C5 states it: the fixed
discovery sentinel when across-Kubernetes-clusters (irrespective of the
other flags); the reference cluster's PD DNS name qualified with the
reference namespace and domain suffix when heterogeneous with no local
placement service; otherwise the local PD DNS name qualified with the
local namespace and no domain suffix. -/
def pdAddrSpec (tc : TidbCluster) : String :=
  if tc.acrossK8s then "PD_ADDR"
  else if tc.Heterogeneous && tc.withoutLocalPD then
    match tc.clusterRef with
    | some ref => PDMemberName ref.name ++ "." ++ ref.ns ++ ".svc" ++
        FormatClusterDomain ref.clusterDomain ++ ":2379"
    | none => PDMemberName tc.name ++ "." ++ tc.ns ++ ".svc:2379"
  else PDMemberName tc.name ++ "." ++ tc.ns ++ ".svc:2379"

theorem pdAddrSpec_eq (tc : TidbCluster) : pdAddrSpec tc = tc.pdAddr := by
  rcases href : tc.clusterRef with _ | ref <;>
    cases hak : tc.acrossK8s <;>
      cases hpd : tc.withoutLocalPD <;>
        simp [pdAddrSpec, TidbCluster.pdAddr, TidbCluster.Heterogeneous, href, hak, hpd]

/-!  Claims. -/

/-- C1: synthesis is idempotent.  For every cluster topology and every
partial input config, feeding the document produced by `GetTiFlashConfig`
back in as the partial input and re-synthesizing with identical topology
inputs yields a document identical to the first output; the same holds for
each dialect synthesizer separately, hence for both dialects and both TLS
postures. -/
theorem c1_synthesis_idempotent (tc : TidbCluster) :
    GetTiFlashConfig (tc.withConfig (some (GetTiFlashConfig tc))) = GetTiFlashConfig tc
    ∧ getTiFlashConfig (tc.withConfig (some (getTiFlashConfig tc))) = getTiFlashConfig tc
    ∧ getTiFlashConfigV2 (tc.withConfig (some (getTiFlashConfigV2 tc))) =
        getTiFlashConfigV2 tc := by
  refine ⟨?_, getTiFlashConfig_idem tc, getTiFlashConfigV2_idem tc⟩
  rw [GetTiFlashConfig_eq (tc.withConfig (some (GetTiFlashConfig tc))),
    GetTiFlashConfig_eq tc, withConfig_version]
  cases h : selectsV2 tc.tiflashVersion
  · simpa using getTiFlashConfig_idem tc
  · simpa using getTiFlashConfigV2_idem tc

/-- The current-dialect common cascade starts with the guarded
storage-path write. -/
def v2RestOps (tc : TidbCluster) : List Op :=
  (v2BaseOps tc).tail
  ++ (if tc.preferIPv6 then v2IPv6Ops else [])
  ++ (if tc.tlsClusterEnabled then v2TlsMainOps ++ v2TlsDelOps else [])

theorem v2CommonOps_cons (tc : TidbCluster) :
    v2CommonOps tc =
      .guard2 "path" "storage.main.dir" (.strList tc.v2StoragePaths) :: v2RestOps tc := by
  rw [v2CommonOps, v2RestOps, v2BaseOps]
  rfl

theorem mem_iteNil {α : Type} {l : List α} {b : Bool} {x : α}
    (h : x ∈ (if b then l else [])) : x ∈ l := by
  cases b
  · simp at h
  · simpa using h

theorem writeKeysOf_v2BaseTail (tc : TidbCluster) :
    writeKeysOf (v2BaseOps tc).tail =
      ["storage.raft.dir", "tmp_path", "tcp_port", "http_port",
       "flash.tidb_status_addr", "flash.service_addr", "flash.flash_cluster.log",
       "flash.proxy.addr", "flash.proxy.advertise-addr", "flash.proxy.data-dir",
       "flash.proxy.config", "logger.errorlog", "logger.log", "raft.pd_addr"] := rfl

theorem writeKeysOf_v2IPv6 :
    writeKeysOf v2IPv6Ops = ["listen_host", "status.metrics_port"] := rfl

theorem writeKeysOf_v2Tls :
    writeKeysOf (v2TlsMainOps ++ v2TlsDelOps) =
      ["security.ca_path", "security.cert_path", "security.key_path",
       "tcp_port_secure", "https_port", "http_port", "tcp_port"] := rfl

theorem writeKeysOf_v2Base (tc : TidbCluster) :
    writeKeysOf (v2BaseOps tc) =
      ["storage.main.dir", "storage.raft.dir", "tmp_path", "tcp_port", "http_port",
       "flash.tidb_status_addr", "flash.service_addr", "flash.flash_cluster.log",
       "flash.proxy.addr", "flash.proxy.advertise-addr", "flash.proxy.data-dir",
       "flash.proxy.config", "logger.errorlog", "logger.log", "raft.pd_addr"] := rfl

/-- Engine keys untouched by the whole rest of the current-dialect cascade
are preserved from the hypothesis on per-segment write keys. -/
theorem v2Rest_not_writes {tc : TidbCluster} {k : String}
    (h1 : k ∉ writeKeysOf (v2BaseOps tc).tail)
    (h2 : k ∉ writeKeysOf v2IPv6Ops)
    (h3 : k ∉ writeKeysOf (v2TlsMainOps ++ v2TlsDelOps)) :
    ∀ op ∈ v2RestOps tc, k ∉ op.writeKeys := by
  intro op hop
  rw [v2RestOps] at hop
  rcases List.mem_append.mp hop with hop | hop
  · rcases List.mem_append.mp hop with hop | hop
    · exact not_writes_of_writeKeysOf h1 op hop
    · exact not_writes_of_writeKeysOf h2 op (mem_iteNil hop)
  · exact not_writes_of_writeKeysOf h3 op (mem_iteNil hop)

theorem v2Common_smd_not_over (tc : TidbCluster) :
    ∀ op ∈ v2CommonOps tc, "storage.main.dir" ∉ op.overwriteKeys := by
  refine not_over_of_overwriteKeysOf ?_
  rw [overwriteKeysOf_v2Common]
  cases tc.tlsClusterEnabled <;> simp

/-- The guarded storage write of the current dialect on an input where both
`path` and `storage.main.dir` are absent. -/
theorem v2_smd_default (tc : TidbCluster)
    (hpath : Doc.get tc.common0 "path" = none)
    (hsmd : Doc.get tc.common0 "storage.main.dir" = none) :
    Doc.get (commonDoc (getTiFlashConfigV2 tc)) "storage.main.dir"
      = some (.strList tc.v2StoragePaths) := by
  rw [commonDoc_v2, v2CommonOps_cons, applyOps_cons]
  have hg : applyOp tc.common0
      (.guard2 "path" "storage.main.dir" (.strList tc.v2StoragePaths)) =
      Doc.set tc.common0 "storage.main.dir" (.strList tc.v2StoragePaths) := by
    simp only [applyOp]
    rw [if_pos ⟨hpath, hsmd⟩]
  rw [hg]
  refine get_applyOps_of_some ?_
    (fun op hop => v2Common_smd_not_over tc op
      (by rw [v2CommonOps_cons]; exact List.mem_cons_of_mem _ hop))
  rw [Doc.get_set, if_pos rfl]

/-- A key distinct from the four port keys and not overwritten by the TLS
security writes survives from the legacy default cascade into the legacy
output with whatever value the cascade gave it. -/
theorem legacy_out_get_eq (tc : TidbCluster) {k : String} {v : Value}
    (hk1 : ¬ k = "http_port") (hk2 : ¬ k = "tcp_port")
    (hk3 : ¬ k = "https_port") (hk4 : ¬ k = "tcp_port_secure")
    (hk5 : k ∉ overwriteKeysOf commonSecurityOps)
    (hpre : Doc.get (legacyCommonPre tc) k = some v) :
    Doc.get (commonDoc (getTiFlashConfig tc)) k = some v := by
  cases htls : tc.tlsClusterEnabled
  · rw [commonDoc_legacy_noTls tc htls, get_del_del_ne hk3 hk4]
    exact hpre
  · rw [commonDoc_legacy_tls tc htls, get_del_del_ne hk1 hk2, legacyCommonSec]
    exact get_applyOps_of_some hpre (not_over_of_overwriteKeysOf hk5)

theorem sifVals_legacyMain_path (tc : TidbCluster) :
    setIfNilValuesOf (legacyMainOps tc) "path" = [.str "/data0/db"] := rfl

/-- C3: for every version string, `GetTiFlashConfig` dispatches to the
current-dialect synthesizer exactly when the string parses as a semantic
version greater than or equal to 5.4.0, and otherwise (including when it
does not parse) dispatches to the legacy-dialect synthesizer without
raising any error (the function is total); in particular "5.4.0" selects
the current dialect and "5.3.9" selects the legacy dialect. -/
theorem c3_dialect_dispatch (tc : TidbCluster) (v : String) :
    GetTiFlashConfig tc =
      (if selectsV2 tc.tiflashVersion then getTiFlashConfigV2 tc
       else getTiFlashConfig tc)
    ∧ (selectsV2 v = true ↔
        ∃ x y z, parseSemver v = some (x, y, z) ∧ (5 < x ∨ (x = 5 ∧ (4 < y ∨ y = 4))))
    ∧ selectsV2 "5.4.0" = true ∧ selectsV2 "5.3.9" = false
    ∧ selectsV2 "not-a-version" = false := by
  refine ⟨GetTiFlashConfig_eq tc, ?_, rfl, rfl, rfl⟩
  cases hp : parseSemver v with
  | none =>
    simp [selectsV2, checkV540, hp]
  | some p =>
    obtain ⟨x, y, z⟩ := p
    simp only [selectsV2, checkV540, hp]
    constructor
    · intro h
      refine ⟨x, y, z, rfl, ?_⟩
      have hb : semverGE540 (x, y, z) = true := by
        cases hge : semverGE540 (x, y, z)
        · rw [hge] at h
          exact absurd h (by simp)
        · rfl
      simpa [semverGE540, Bool.or_eq_true, Bool.and_eq_true, decide_eq_true_eq,
        and_or_left] using hb
    · rintro ⟨x', y', z', heq, hge⟩
      obtain ⟨rfl, rfl, rfl⟩ : x = x' ∧ y = y' ∧ z = z' := by
        have := Option.some.inj heq
        simp only [Prod.mk.injEq] at this
        exact ⟨this.1, this.2.1, this.2.2⟩
      have hb : semverGE540 (x, y, z) = true := by
        simp [semverGE540, Bool.or_eq_true, Bool.and_eq_true, decide_eq_true_eq,
          and_or_left]
        tauto
      rw [hb]

/-- C4: for the legacy dialect and every partial input, the output engine
document contains `tcp_port_secure` and `https_port` exactly when TLS is
enabled, and `tcp_port` and `http_port` exactly when TLS is disabled — the
two port families never coexist in a legacy output. -/
theorem c4_legacy_port_disjointness (tc : TidbCluster) :
    (Doc.get (commonDoc (getTiFlashConfig tc)) "tcp_port_secure").isSome
        = tc.tlsClusterEnabled
    ∧ (Doc.get (commonDoc (getTiFlashConfig tc)) "https_port").isSome
        = tc.tlsClusterEnabled
    ∧ (Doc.get (commonDoc (getTiFlashConfig tc)) "tcp_port").isSome
        = !tc.tlsClusterEnabled
    ∧ (Doc.get (commonDoc (getTiFlashConfig tc)) "http_port").isSome
        = !tc.tlsClusterEnabled := by
  have hnodel : ∀ k : String, k ∉ delKeysOf (legacyCommonDefaultOps tc) := by
    intro k
    rw [delKeysOf_legacyCommon]
    exact List.not_mem_nil k
  have hmemtps : "tcp_port_secure" ∈ setIfNilKeysOf (legacyCommonDefaultOps tc) :=
    @mem_setIfNilKeysOf "tcp_port_secure" (.int 9000) (legacyCommonDefaultOps tc)
      (by rw [legacyCommonDefaultOps]
          exact List.mem_append_right _ (by simp [legacyMainOps]))
  have hmemhttps : "https_port" ∈ setIfNilKeysOf (legacyCommonDefaultOps tc) :=
    @mem_setIfNilKeysOf "https_port" (.int 8123) (legacyCommonDefaultOps tc)
      (by rw [legacyCommonDefaultOps]
          exact List.mem_append_right _ (by simp [legacyMainOps]))
  have hmemtcp : "tcp_port" ∈ setIfNilKeysOf (legacyCommonDefaultOps tc) :=
    @mem_setIfNilKeysOf "tcp_port" (.int 9000) (legacyCommonDefaultOps tc)
      (by rw [legacyCommonDefaultOps]
          exact List.mem_append_right _ (by simp [legacyMainOps]))
  have hmemhttp : "http_port" ∈ setIfNilKeysOf (legacyCommonDefaultOps tc) :=
    @mem_setIfNilKeysOf "http_port" (.int 8123) (legacyCommonDefaultOps tc)
      (by rw [legacyCommonDefaultOps]
          exact List.mem_append_right _ (by simp [legacyMainOps]))
  have hpre : ∀ k ∈ setIfNilKeysOf (legacyCommonDefaultOps tc),
      (Doc.get (legacyCommonPre tc) k).isSome := fun k hk =>
    isSome_of_setIfNil_mem hk (hnodel k)
  have hsec : ∀ k ∈ setIfNilKeysOf (legacyCommonDefaultOps tc),
      (Doc.get (legacyCommonSec tc) k).isSome := by
    intro k hk
    rw [legacyCommonSec]
    exact isSome_applyOps (hpre k hk)
      (by rw [delKeysOf_commonSec]; exact List.not_mem_nil k)
  cases htls : tc.tlsClusterEnabled
  · rw [commonDoc_legacy_noTls tc htls]
    refine ⟨?_, ?_, ?_, ?_⟩
    · rw [get_del_del_outer]
      rfl
    · rw [get_del_del_inner _ _ _ (by decide)]
      rfl
    · rw [Bool.not_false]
      exact isSome_del_del (by decide) (by decide) (hpre _ hmemtcp)
    · rw [Bool.not_false]
      exact isSome_del_del (by decide) (by decide) (hpre _ hmemhttp)
  · rw [commonDoc_legacy_tls tc htls]
    refine ⟨?_, ?_, ?_, ?_⟩
    · exact isSome_del_del (by decide) (by decide) (hsec _ hmemtps)
    · exact isSome_del_del (by decide) (by decide) (hsec _ hmemhttps)
    · rw [Bool.not_true, get_del_del_outer]
      rfl
    · rw [Bool.not_true, get_del_del_inner _ _ _ (by decide)]
      rfl

/-- C5: when `raft.pd_addr` is absent from the partial input, both dialects
resolve the placement-service address by the claimed order: the fixed
discovery sentinel "PD_ADDR" when across-Kubernetes-clusters (irrespective
of the other flags); the reference cluster's PD DNS name qualified with the
reference namespace and domain suffix when heterogeneous with no local
placement service; otherwise the local PD DNS name with the local namespace
and no domain suffix. -/
theorem c5_pd_addr_resolution (tc : TidbCluster)
    (h : Doc.get tc.common0 "raft.pd_addr" = none) :
    Doc.get (commonDoc (getTiFlashConfig tc)) "raft.pd_addr"
        = some (.str (pdAddrSpec tc))
    ∧ Doc.get (commonDoc (getTiFlashConfigV2 tc)) "raft.pd_addr"
        = some (.str (pdAddrSpec tc)) := by
  rw [pdAddrSpec_eq]
  have hpre : Doc.get (legacyCommonPre tc) "raft.pd_addr" = some (.str tc.pdAddr) := by
    rw [legacyCommonPre]
    refine get_applyOps_default (sifVals_legacyCommon_pd tc) ?_ ?_ h
    · exact not_over_of_overwriteKeysOf
        (by rw [overwriteKeysOf_legacyCommon]; exact List.not_mem_nil _)
    · intro p hp
      rw [guardPairsOf_legacyCommon tc p hp]
      decide
  constructor
  · cases htls : tc.tlsClusterEnabled
    · rw [commonDoc_legacy_noTls tc htls, get_del_del_ne (by decide) (by decide)]
      exact hpre
    · rw [commonDoc_legacy_tls tc htls, get_del_del_ne (by decide) (by decide),
        legacyCommonSec]
      refine get_applyOps_of_some hpre ?_
      exact not_over_of_overwriteKeysOf (by rw [overwriteKeysOf_commonSec]; decide)
  · rw [commonDoc_v2]
    refine get_applyOps_default (sifVals_v2Common_pd tc) ?_ ?_ h
    · refine not_over_of_overwriteKeysOf ?_
      rw [overwriteKeysOf_v2Common]
      cases tc.tlsClusterEnabled <;> simp
    · intro p hp
      rw [guardPairsOf_v2Common] at hp
      rcases List.mem_cons.mp hp with rfl | hp
      · decide
      · rcases List.mem_cons.mp hp with rfl | hp
        · decide
        · exact absurd hp (List.not_mem_nil p)

/-- Concrete input discharging the hypotheses of `c5_pd_addr_resolution`:
an across-Kubernetes-clusters heterogeneous cluster with no local PD and an
empty partial config resolves to the sentinel. -/
def tcC5 : TidbCluster :=
  ⟨"a", "b", "", "v5.4.0", false, false, 0,
    some ⟨"r", "rns", "rdom"⟩, true, true, false, "i", "p", none⟩

theorem c5_pd_addr_resolution_witness :
    Doc.get (commonDoc (getTiFlashConfig tcC5)) "raft.pd_addr"
        = some (.str "PD_ADDR")
    ∧ Doc.get (commonDoc (getTiFlashConfigV2 tcC5)) "raft.pd_addr"
        = some (.str "PD_ADDR") :=
  c5_pd_addr_resolution tcC5 rfl

/-- C6: storage path defaults.  For an empty partial engine config, zero
declared storage volumes yield legacy `path = "/data0/db"` and
current-dialect `storage.main.dir = ["/data0/db"]`; three declared volumes
yield the comma-joined legacy path and the three-element list; and the
current dialect writes `storage.main.dir` only when neither it nor the
legacy key `path` is already present in the input. -/
theorem c6_storage_paths (tc : TidbCluster) :
    (tc.common0 = [] → tc.storageClaims = 0 →
      Doc.get (commonDoc (getTiFlashConfig tc)) "path" = some (.str "/data0/db")
      ∧ Doc.get (commonDoc (getTiFlashConfigV2 tc)) "storage.main.dir"
          = some (.strList ["/data0/db"]))
    ∧ (tc.common0 = [] → tc.storageClaims = 3 →
      Doc.get (commonDoc (getTiFlashConfig tc)) "path"
          = some (.str "/data0/db,/data1/db,/data2/db")
      ∧ Doc.get (commonDoc (getTiFlashConfigV2 tc)) "storage.main.dir"
          = some (.strList ["/data0/db", "/data1/db", "/data2/db"]))
    ∧ (¬ (Doc.get tc.common0 "path" = none
          ∧ Doc.get tc.common0 "storage.main.dir" = none) →
      Doc.get (commonDoc (getTiFlashConfigV2 tc)) "storage.main.dir"
        = Doc.get tc.common0 "storage.main.dir") := by
  refine ⟨?_, ?_, ?_⟩
  · intro hin hc0
    constructor
    · refine legacy_out_get_eq tc (by decide) (by decide) (by decide) (by decide)
        (by rw [overwriteKeysOf_commonSec]; decide) ?_
      rw [legacyCommonPre]
      refine get_applyOps_default ?_ ?_ ?_ (by rw [hin]; rfl)
      · rw [legacyCommonDefaultOps, setIfNilValuesOf_append, sifVals_legacyPath,
          sifVals_legacyMain_path]
        rfl
      · exact not_over_of_overwriteKeysOf
          (by rw [overwriteKeysOf_legacyCommon]; exact List.not_mem_nil _)
      · intro p hp
        rw [legacyCommonDefaultOps, guardPairsOf_append, guardPairsOf_legacyMain,
          List.append_nil, legacyPathOps, if_pos hc0] at hp
        exact absurd hp (List.not_mem_nil p)
    · rw [v2_smd_default tc (by rw [hin]; rfl) (by rw [hin]; rfl),
        TidbCluster.v2StoragePaths, hc0, if_pos rfl]
  · intro hin hc3
    have h3 : ¬ tc.storageClaims = 0 := by rw [hc3]; decide
    constructor
    · refine legacy_out_get_eq tc (by decide) (by decide) (by decide) (by decide)
        (by rw [overwriteKeysOf_commonSec]; decide) ?_
      have h3ops : legacyPathOps tc =
          [.guard2 "path" "path" (.str "/data0/db,/data1/db,/data2/db")] := by
        rw [legacyPathOps, if_neg h3, hc3]
        rfl
      rw [legacyCommonPre, legacyCommonDefaultOps, h3ops, hin,
        List.singleton_append, applyOps_cons]
      have hg : applyOp []
          (.guard2 "path" "path" (.str "/data0/db,/data1/db,/data2/db")) =
          [("path", .str "/data0/db,/data1/db,/data2/db")] := by
        simp only [applyOp]
        rw [if_pos ⟨rfl, rfl⟩]
        rfl
      rw [hg]
      refine get_applyOps_of_some (by simp [Doc.get]) ?_
      exact not_over_of_overwriteKeysOf
        (by rw [overwriteKeysOf_legacyMain]; exact List.not_mem_nil _)
    · rw [v2_smd_default tc (by rw [hin]; rfl) (by rw [hin]; rfl),
        TidbCluster.v2StoragePaths, hc3, if_neg (by decide)]
      rfl
  · intro hcond
    rw [commonDoc_v2, v2CommonOps_cons, applyOps_cons,
      applyOp_guard2_skip hcond]
    refine get_applyOps_of_not_writes _ (v2Rest_not_writes ?_ ?_ ?_)
    · rw [writeKeysOf_v2BaseTail]
      decide
    · rw [writeKeysOf_v2IPv6]
      decide
    · rw [writeKeysOf_v2Tls]
      decide

/-- Two concrete clusters (zero and three declared storage volumes, empty
partial config; the second also pre-sets `path`) discharging the
hypotheses of `c6_storage_paths`. -/
def tcC6a : TidbCluster :=
  ⟨"a", "b", "", "v5.4.0", false, false, 0, none, false, false, false, "i", "p", none⟩

def tcC6b : TidbCluster :=
  ⟨"a", "b", "", "v5.4.0", false, false, 3, none, false, false, false, "i", "p", none⟩

def tcC6c : TidbCluster :=
  ⟨"a", "b", "", "v5.4.0", false, false, 3, none, false, false, false, "i", "p",
    some ⟨some [("path", .str "/u/db")], none⟩⟩

theorem c6_storage_paths_witness :
    (Doc.get (commonDoc (getTiFlashConfig tcC6a)) "path" = some (.str "/data0/db")
      ∧ Doc.get (commonDoc (getTiFlashConfigV2 tcC6a)) "storage.main.dir"
          = some (.strList ["/data0/db"]))
    ∧ (Doc.get (commonDoc (getTiFlashConfig tcC6b)) "path"
          = some (.str "/data0/db,/data1/db,/data2/db")
      ∧ Doc.get (commonDoc (getTiFlashConfigV2 tcC6b)) "storage.main.dir"
          = some (.strList ["/data0/db", "/data1/db", "/data2/db"]))
    ∧ Doc.get (commonDoc (getTiFlashConfigV2 tcC6c)) "storage.main.dir"
        = Doc.get tcC6c.common0 "storage.main.dir" :=
  ⟨(c6_storage_paths tcC6a).1 rfl rfl,
   (c6_storage_paths tcC6b).2.1 rfl rfl,
   (c6_storage_paths tcC6c).2.2 (by decide)⟩

/-- C10: in the current dialect the engine defaults `listen_host` and
`status.metrics_port = 8234` are written only when IPv6 is preferred — for
a partial input lacking these keys and `PreferIPv6` false the current
output contains neither, while under IPv6 it contains `listen_host = "::"`
and 8234 — whereas the legacy dialect always sets both
(`listen_host = "0.0.0.0"` under IPv4, `"::"` under IPv6, and
`status.metrics_port = 8234` in either case). -/
theorem c10_listen_host_defaults (tc : TidbCluster) :
    (tc.preferIPv6 = false →
      Doc.get tc.common0 "listen_host" = none →
      Doc.get tc.common0 "status.metrics_port" = none →
      Doc.get (commonDoc (getTiFlashConfigV2 tc)) "listen_host" = none
      ∧ Doc.get (commonDoc (getTiFlashConfigV2 tc)) "status.metrics_port" = none)
    ∧ (tc.preferIPv6 = true →
      Doc.get tc.common0 "listen_host" = none →
      Doc.get tc.common0 "status.metrics_port" = none →
      Doc.get (commonDoc (getTiFlashConfigV2 tc)) "listen_host" = some (.str "::")
      ∧ Doc.get (commonDoc (getTiFlashConfigV2 tc)) "status.metrics_port"
          = some (.int 8234))
    ∧ (Doc.get tc.common0 "listen_host" = none →
      Doc.get (commonDoc (getTiFlashConfig tc)) "listen_host"
        = some (.str (if tc.preferIPv6 then "::" else "0.0.0.0")))
    ∧ (Doc.get tc.common0 "status.metrics_port" = none →
      Doc.get (commonDoc (getTiFlashConfig tc)) "status.metrics_port"
        = some (.int 8234)) := by
  refine ⟨?_, ?_, ?_, ?_⟩
  · intro h6 hlh hmp
    have hframe : ∀ (k : String), k ∉ writeKeysOf (v2BaseOps tc) →
        k ∉ writeKeysOf (v2TlsMainOps ++ v2TlsDelOps) →
        Doc.get (commonDoc (getTiFlashConfigV2 tc)) k = Doc.get tc.common0 k := by
      intro k hkb hkt
      rw [commonDoc_v2]
      refine get_applyOps_of_not_writes _ ?_
      intro op hop
      rw [v2CommonOps] at hop
      rcases List.mem_append.mp hop with hop | hop
      · rcases List.mem_append.mp hop with hop | hop
        · exact not_writes_of_writeKeysOf hkb op hop
        · rw [h6] at hop
          simp at hop
      · exact not_writes_of_writeKeysOf hkt op (mem_iteNil hop)
    constructor
    · rw [hframe "listen_host" (by rw [writeKeysOf_v2Base]; decide)
        (by rw [writeKeysOf_v2Tls]; decide)]
      exact hlh
    · rw [hframe "status.metrics_port" (by rw [writeKeysOf_v2Base]; decide)
        (by rw [writeKeysOf_v2Tls]; decide)]
      exact hmp
  · intro h6 hlh hmp
    have hover : ∀ (k : String), k ∉ ["security.ca_path", "security.cert_path",
        "security.key_path", "http_port", "tcp_port"] →
        ∀ op ∈ v2CommonOps tc, k ∉ op.overwriteKeys := by
      intro k hk
      refine not_over_of_overwriteKeysOf ?_
      rw [overwriteKeysOf_v2Common]
      cases tc.tlsClusterEnabled
      · simp
      · simpa using hk
    have hguard : ∀ p ∈ guardPairsOf (v2CommonOps tc),
        ¬ p.2 = "listen_host" ∧ ¬ p.2 = "status.metrics_port" := by
      intro p hp
      rw [guardPairsOf_v2Common] at hp
      rcases List.mem_cons.mp hp with rfl | hp
      · exact ⟨by decide, by decide⟩
      · rcases List.mem_cons.mp hp with rfl | hp
        · exact ⟨by decide, by decide⟩
        · exact absurd hp (List.not_mem_nil p)
    constructor
    · rw [commonDoc_v2]
      refine get_applyOps_default ?_ (hover _ (by decide))
        (fun p hp => (hguard p hp).1) hlh
      rw [v2CommonOps, setIfNilValuesOf_append, setIfNilValuesOf_append,
        @sifValsOf_iteNil (v2TlsMainOps ++ v2TlsDelOps) "listen_host"
          tc.tlsClusterEnabled rfl, h6]
      rfl
    · rw [commonDoc_v2]
      refine get_applyOps_default ?_ (hover _ (by decide))
        (fun p hp => (hguard p hp).2) hmp
      rw [v2CommonOps, setIfNilValuesOf_append, setIfNilValuesOf_append,
        @sifValsOf_iteNil (v2TlsMainOps ++ v2TlsDelOps) "status.metrics_port"
          tc.tlsClusterEnabled rfl, h6]
      rfl
  · intro hlh
    refine legacy_out_get_eq tc (by decide) (by decide) (by decide) (by decide)
      (by rw [overwriteKeysOf_commonSec]; decide) ?_
    rw [legacyCommonPre]
    refine get_applyOps_default ?_ ?_ ?_ hlh
    · rw [legacyCommonDefaultOps, setIfNilValuesOf_append, sifVals_legacyPath]
      rfl
    · exact not_over_of_overwriteKeysOf
        (by rw [overwriteKeysOf_legacyCommon]; exact List.not_mem_nil _)
    · intro p hp
      rw [guardPairsOf_legacyCommon tc p hp]
      decide
  · intro hmp
    refine legacy_out_get_eq tc (by decide) (by decide) (by decide) (by decide)
      (by rw [overwriteKeysOf_commonSec]; decide) ?_
    rw [legacyCommonPre]
    refine get_applyOps_default ?_ ?_ ?_ hmp
    · rw [legacyCommonDefaultOps, setIfNilValuesOf_append, sifVals_legacyPath]
      rfl
    · exact not_over_of_overwriteKeysOf
        (by rw [overwriteKeysOf_legacyCommon]; exact List.not_mem_nil _)
    · intro p hp
      rw [guardPairsOf_legacyCommon tc p hp]
      decide

def tcC10a : TidbCluster :=
  ⟨"a", "b", "", "v5.4.0", false, false, 0, none, false, false, false, "i", "p", none⟩

def tcC10b : TidbCluster :=
  ⟨"a", "b", "", "v5.4.0", true, false, 0, none, false, false, false, "i", "p", none⟩

theorem c10_listen_host_defaults_witness :
    (Doc.get (commonDoc (getTiFlashConfigV2 tcC10a)) "listen_host" = none
      ∧ Doc.get (commonDoc (getTiFlashConfigV2 tcC10a)) "status.metrics_port" = none)
    ∧ (Doc.get (commonDoc (getTiFlashConfigV2 tcC10b)) "listen_host"
          = some (.str "::")
      ∧ Doc.get (commonDoc (getTiFlashConfigV2 tcC10b)) "status.metrics_port"
          = some (.int 8234))
    ∧ Doc.get (commonDoc (getTiFlashConfig tcC10a)) "listen_host"
        = some (.str (if tcC10a.preferIPv6 then "::" else "0.0.0.0"))
    ∧ Doc.get (commonDoc (getTiFlashConfig tcC10b)) "listen_host"
        = some (.str (if tcC10b.preferIPv6 then "::" else "0.0.0.0"))
    ∧ Doc.get (commonDoc (getTiFlashConfig tcC10a)) "status.metrics_port"
        = some (.int 8234) :=
  ⟨(c10_listen_host_defaults tcC10a).1 rfl rfl rfl,
   (c10_listen_host_defaults tcC10b).2.1 rfl rfl rfl,
   (c10_listen_host_defaults tcC10a).2.2.1 rfl,
   (c10_listen_host_defaults tcC10b).2.2.1 rfl,
   (c10_listen_host_defaults tcC10a).2.2.2 rfl⟩

theorem setIfNilKeysOf_legacyMain (tc : TidbCluster) :
    setIfNilKeysOf (legacyMainOps tc) =
      ["tmp_path", "display_name", "default_profile", "path", "path_realtime_mode",
       "mark_cache_size", "minmax_index_cache_size", "tcp_port", "tcp_port_secure",
       "https_port", "http_port", "interserver_http_port", "flash.tidb_status_addr",
       "flash.service_addr", "flash.overlap_threshold", "flash.compact_log_min_period",
       "flash.flash_cluster.cluster_manager_path", "flash.flash_cluster.log",
       "flash.flash_cluster.refresh_interval", "flash.flash_cluster.update_rule_interval",
       "flash.flash_cluster.master_ttl", "flash.proxy.addr", "flash.proxy.advertise-addr",
       "flash.proxy.data-dir", "flash.proxy.config", "logger.errorlog", "logger.size",
       "logger.log", "logger.level", "logger.count", "application.runAsDaemon",
       "raft.kvstore_path", "raft.storage_engine", "raft.pd_addr", "listen_host",
       "status.metrics_port", "quotas.default.interval.duration",
       "quotas.default.interval.queries", "quotas.default.interval.errors",
       "quotas.default.interval.result_rows", "quotas.default.interval.read_rows",
       "quotas.default.interval.execution_time", "users.readonly.profile",
       "users.readonly.quota", "users.readonly.networks.ip", "users.readonly.password",
       "users.default.profile", "users.default.quota", "users.default.networks.ip",
       "users.default.password", "profiles.readonly.readonly",
       "profiles.default.max_memory_usage", "profiles.default.load_balancing",
       "profiles.default.use_uncompressed_cache"] := rfl

theorem setIfNilKeysOf_legacyPath (tc : TidbCluster) :
    setIfNilKeysOf (legacyPathOps tc) = [] := by
  by_cases h : tc.storageClaims = 0
  · rw [legacyPathOps, if_pos h]
    rfl
  · rw [legacyPathOps, if_neg h]
    rfl

theorem setIfNilKeysOf_legacyCommon (tc : TidbCluster) :
    setIfNilKeysOf (legacyCommonDefaultOps tc) = setIfNilKeysOf (legacyMainOps tc) := by
  rw [legacyCommonDefaultOps, setIfNilKeysOf_append, setIfNilKeysOf_legacyPath]
  rfl

theorem setIfNilKeysOf_v2Base (tc : TidbCluster) :
    setIfNilKeysOf (v2BaseOps tc) =
      ["tmp_path", "tcp_port", "http_port", "flash.tidb_status_addr",
       "flash.service_addr", "flash.flash_cluster.log", "flash.proxy.addr",
       "flash.proxy.advertise-addr", "flash.proxy.data-dir", "flash.proxy.config",
       "logger.errorlog", "logger.log", "raft.pd_addr"] := rfl

theorem setIfNilKeysOf_v2IPv6 :
    setIfNilKeysOf v2IPv6Ops = ["listen_host", "status.metrics_port"] := rfl

theorem setIfNilKeysOf_v2TlsSeg :
    setIfNilKeysOf (v2TlsMainOps ++ v2TlsDelOps) =
      ["tcp_port_secure", "https_port"] := rfl

theorem setIfNilKeysOf_legacyProxy (tc : TidbCluster) :
    setIfNilKeysOf (legacyProxyDefaultOps tc) =
      ["log-level", "server.engine-addr", "server.status-addr",
       "server.advertise-status-addr"] := rfl

theorem overwriteKeysOf_logDefault : overwriteKeysOf logDefaultOps = [] := rfl

theorem guardPairsOf_logDefault : guardPairsOf logDefaultOps = [] := rfl

theorem sifVals_logDefault_server :
    setIfNilValuesOf logDefaultOps "logger.log" = [.str defaultServerLog] := rfl

theorem sifVals_logDefault_error :
    setIfNilValuesOf logDefaultOps "logger.errorlog" = [.str defaultErrorLog] := rfl

theorem sifVals_logDefault_cluster :
    setIfNilValuesOf logDefaultOps "flash.flash_cluster.log"
      = [.str defaultClusterLog] := rfl

/-- The sidecar builder, with the engine document named: the input document
it reads is exactly `tc.common0` after the log-default cascade. -/
theorem build_common_eq (tc : TidbCluster) :
    buildTiFlashSidecarContainers tc =
      match getAsString (applyOps logDefaultOps tc.common0) "logger.log" with
      | .error e => .error e
      | .ok p1 =>
        match getAsString (applyOps logDefaultOps tc.common0) "logger.errorlog" with
        | .error e => .error e
        | .ok p2 =>
          match getAsString (applyOps logDefaultOps tc.common0)
              "flash.flash_cluster.log" with
          | .error e => .error e
          | .ok p3 =>
            .ok [buildSidecarContainer "serverlog" p1 tc.helperImage
                   tc.helperImagePullPolicy,
                 buildSidecarContainer "errorlog" p2 tc.helperImage
                   tc.helperImagePullPolicy,
                 buildSidecarContainer "clusterlog" p3 tc.helperImage
                   tc.helperImagePullPolicy] := rfl

theorem setIfNilKeysOf_v2Common (tc : TidbCluster) :
    setIfNilKeysOf (v2CommonOps tc) =
      ["tmp_path", "tcp_port", "http_port", "flash.tidb_status_addr",
       "flash.service_addr", "flash.flash_cluster.log", "flash.proxy.addr",
       "flash.proxy.advertise-addr", "flash.proxy.data-dir", "flash.proxy.config",
       "logger.errorlog", "logger.log", "raft.pd_addr"]
      ++ (if tc.preferIPv6 then ["listen_host", "status.metrics_port"] else [])
      ++ (if tc.tlsClusterEnabled then ["tcp_port_secure", "https_port"] else []) := by
  cases h6 : tc.preferIPv6 <;> cases htls : tc.tlsClusterEnabled <;>
    · rw [v2CommonOps, h6, htls]
      rfl

theorem setIfNilKeysOf_v2Proxy (tc : TidbCluster) :
    setIfNilKeysOf (v2ProxyOps tc) =
      ["log-level", "server.engine-addr", "server.status-addr",
       "server.advertise-status-addr"] := by
  cases htls : tc.tlsClusterEnabled <;> simp only [v2ProxyOps, htls] <;> rfl

theorem overwriteKeysOf_v2Proxy (tc : TidbCluster) :
    overwriteKeysOf (v2ProxyOps tc) =
      if tc.tlsClusterEnabled then
        ["security.ca-path", "security.cert-path", "security.key-path"]
      else [] := by
  cases htls : tc.tlsClusterEnabled <;> simp only [v2ProxyOps, htls] <;> rfl

theorem overwriteKeysOf_legacyProxy (tc : TidbCluster) :
    overwriteKeysOf (legacyProxyDefaultOps tc) = [] := rfl

theorem overwriteKeysOf_proxySec :
    overwriteKeysOf proxySecurityOps =
      ["security.ca-path", "security.cert-path", "security.key-path"] := rfl

theorem applyOps_tlsDel (d : Doc) :
    applyOps v2TlsDelOps d = Doc.del (Doc.del d "http_port") "tcp_port" := rfl

theorem notMem_append_iteNil {x : String} {l1 l2 l3 : List String} {b2 b3 : Bool}
    (h1 : x ∉ l1) (h2 : x ∉ l2) (h3 : x ∉ l3) :
    x ∉ l1 ++ (if b2 then l2 else []) ++ (if b3 then l3 else []) := by
  intro hx
  rcases List.mem_append.mp hx with hx | hx
  · rcases List.mem_append.mp hx with hx | hx
    · exact h1 hx
    · exact h2 (mem_iteNil hx)
  · exact h3 (mem_iteNil hx)

theorem proxyDoc_v2 (tc : TidbCluster) :
    proxyDoc (getTiFlashConfigV2 tc) =
      (if tc.tlsClusterEnabled then certCNCopy (v2CommonDoc tc) (v2ProxyPre tc)
       else v2ProxyPre tc) := by
  rw [proxyDoc, configV2_proxy, Option.getD_some]

theorem proxyDoc_legacy_tls (tc : TidbCluster) (h : tc.tlsClusterEnabled = true) :
    proxyDoc (getTiFlashConfig tc) =
      certCNCopy (legacyCommonSec tc)
        (applyOps proxySecurityOps (legacyProxyPre tc)) := by
  rw [getTiFlashConfig_tlsEq tc h]
  rfl

theorem proxyDoc_legacy_noTls (tc : TidbCluster) (h : tc.tlsClusterEnabled = false) :
    proxyDoc (getTiFlashConfig tc) = legacyProxyPre tc := by
  rw [getTiFlashConfig_noTlsEq tc h]
  rfl

/-- C2: amended no-clobber property.  A user value at a default key is
never *overwritten* by a default, but it is not always preserved: the TLS
cleanup *deletes* the plaintext port keys of the current dialect and the
posture-opposite port keys of the legacy dialect even when the user set
them, and at every other default key (engine or proxy, either dialect)
the output carries exactly the caller's value. -/
theorem c2_user_values_not_overwritten (tc : TidbCluster) (k : String) (v : Value) :
    (Doc.get tc.common0 k = some v → k ∈ setIfNilKeysOf (v2CommonOps tc) →
      Doc.get (commonDoc (getTiFlashConfigV2 tc)) k = some v
      ∨ (tc.tlsClusterEnabled = true ∧ (k = "http_port" ∨ k = "tcp_port")
          ∧ Doc.get (commonDoc (getTiFlashConfigV2 tc)) k = none))
    ∧ (Doc.get tc.common0 k = some v →
        k ∈ setIfNilKeysOf (legacyCommonDefaultOps tc) →
      Doc.get (commonDoc (getTiFlashConfig tc)) k = some v
      ∨ (((tc.tlsClusterEnabled = true ∧ (k = "http_port" ∨ k = "tcp_port"))
          ∨ (tc.tlsClusterEnabled = false
              ∧ (k = "https_port" ∨ k = "tcp_port_secure")))
          ∧ Doc.get (commonDoc (getTiFlashConfig tc)) k = none))
    ∧ (Doc.get tc.proxy0 k = some v → k ∈ setIfNilKeysOf (v2ProxyOps tc) →
      Doc.get (proxyDoc (getTiFlashConfigV2 tc)) k = some v)
    ∧ (Doc.get tc.proxy0 k = some v →
        k ∈ setIfNilKeysOf (legacyProxyDefaultOps tc) →
      Doc.get (proxyDoc (getTiFlashConfig tc)) k = some v) := by
  refine ⟨?_, ?_, ?_, ?_⟩
  · intro hv hk
    cases htls : tc.tlsClusterEnabled
    · left
      rw [commonDoc_v2]
      refine get_applyOps_of_some hv (not_over_of_overwriteKeysOf ?_)
      rw [overwriteKeysOf_v2Common, htls]
      simp
    · by_cases hk2 : k = "http_port" ∨ k = "tcp_port"
      · refine Or.inr ⟨rfl, hk2, ?_⟩
        rw [commonDoc_v2, v2CommonOps, htls, if_pos rfl, applyOps_append,
          applyOps_append, applyOps_tlsDel]
        rcases hk2 with rfl | rfl
        · exact get_del_del_inner _ _ _ (by decide)
        · exact get_del_del_outer _ _ _
      · left
        rw [commonDoc_v2]
        refine get_applyOps_of_some hv (not_over_of_overwriteKeysOf ?_)
        rw [overwriteKeysOf_v2Common, htls, if_pos rfl]
        intro hov
        rw [setIfNilKeysOf_v2Common] at hk
        simp only [List.mem_cons, List.not_mem_nil, or_false] at hov
        rcases hov with rfl | rfl | rfl | rfl | rfl
        · exact notMem_append_iteNil (by decide) (by decide) (by decide) hk
        · exact notMem_append_iteNil (by decide) (by decide) (by decide) hk
        · exact notMem_append_iteNil (by decide) (by decide) (by decide) hk
        · exact hk2 (Or.inl rfl)
        · exact hk2 (Or.inr rfl)
  · intro hv hk
    cases htls : tc.tlsClusterEnabled
    · by_cases hk2 : k = "https_port" ∨ k = "tcp_port_secure"
      · refine Or.inr ⟨Or.inr ⟨rfl, hk2⟩, ?_⟩
        rw [commonDoc_legacy_noTls tc htls]
        rcases hk2 with rfl | rfl
        · exact get_del_del_inner _ _ _ (by decide)
        · exact get_del_del_outer _ _ _
      · left
        rw [commonDoc_legacy_noTls tc htls]
        push_neg at hk2
        rw [get_del_del_ne hk2.1 hk2.2, legacyCommonPre]
        exact get_applyOps_of_some hv (not_over_of_overwriteKeysOf
          (by rw [overwriteKeysOf_legacyCommon]; exact List.not_mem_nil _))
    · by_cases hk2 : k = "http_port" ∨ k = "tcp_port"
      · refine Or.inr ⟨Or.inl ⟨rfl, hk2⟩, ?_⟩
        rw [commonDoc_legacy_tls tc htls]
        rcases hk2 with rfl | rfl
        · exact get_del_del_inner _ _ _ (by decide)
        · exact get_del_del_outer _ _ _
      · left
        rw [commonDoc_legacy_tls tc htls]
        push_neg at hk2
        rw [get_del_del_ne hk2.1 hk2.2, legacyCommonSec]
        refine get_applyOps_of_some ?_ (not_over_of_overwriteKeysOf ?_)
        · rw [legacyCommonPre]
          exact get_applyOps_of_some hv (not_over_of_overwriteKeysOf
            (by rw [overwriteKeysOf_legacyCommon]; exact List.not_mem_nil _))
        · rw [overwriteKeysOf_commonSec]
          intro hov
          rw [setIfNilKeysOf_legacyCommon, setIfNilKeysOf_legacyMain] at hk
          simp only [List.mem_cons, List.not_mem_nil, or_false] at hov
          rcases hov with rfl | rfl | rfl
          · exact absurd hk (by decide)
          · exact absurd hk (by decide)
          · exact absurd hk (by decide)
  · intro hv hk
    have hk4 : k = "log-level" ∨ k = "server.engine-addr"
        ∨ k = "server.status-addr" ∨ k = "server.advertise-status-addr" := by
      rw [setIfNilKeysOf_v2Proxy] at hk
      simpa using hk
    have hne : ¬ k = "security.cert-allowed-cn" := by
      rcases hk4 with rfl | rfl | rfl | rfl <;> decide
    have hpre : Doc.get (v2ProxyPre tc) k = some v := by
      rw [v2ProxyPre]
      refine get_applyOps_of_some hv (not_over_of_overwriteKeysOf ?_)
      rw [overwriteKeysOf_v2Proxy]
      cases tc.tlsClusterEnabled
      · simp
      · rw [if_pos rfl]
        rcases hk4 with rfl | rfl | rfl | rfl <;> decide
    rw [proxyDoc_v2]
    cases htls : tc.tlsClusterEnabled
    · simpa using hpre
    · rw [if_pos rfl, get_certCNCopy_ne hne]
      exact hpre
  · intro hv hk
    have hk4 : k = "log-level" ∨ k = "server.engine-addr"
        ∨ k = "server.status-addr" ∨ k = "server.advertise-status-addr" := by
      rw [setIfNilKeysOf_legacyProxy] at hk
      simpa using hk
    have hne : ¬ k = "security.cert-allowed-cn" := by
      rcases hk4 with rfl | rfl | rfl | rfl <;> decide
    have hpre : Doc.get (legacyProxyPre tc) k = some v := by
      rw [legacyProxyPre]
      exact get_applyOps_of_some hv (not_over_of_overwriteKeysOf
        (by rw [overwriteKeysOf_legacyProxy]; exact List.not_mem_nil _))
    cases htls : tc.tlsClusterEnabled
    · rw [proxyDoc_legacy_noTls tc htls]
      exact hpre
    · rw [proxyDoc_legacy_tls tc htls, get_certCNCopy_ne hne]
      refine get_applyOps_of_some hpre (not_over_of_overwriteKeysOf ?_)
      rw [overwriteKeysOf_proxySec]
      rcases hk4 with rfl | rfl | rfl | rfl <;> decide

/-- Concrete refutation of the claim as stated: with TLS enabled the user
explicitly sets `tcp_port` — a default key of both dialects — yet both
synthesizers return a document where the key is gone, not the user's
value. -/
def tcC2 : TidbCluster :=
  ⟨"a", "b", "", "v5.4.0", false, true, 0, none, false, false, false, "i", "p",
    some ⟨some [("tcp_port", .int 1234)], none⟩⟩

theorem c2_user_values_not_overwritten_counterexample :
    Doc.get tcC2.common0 "tcp_port" = some (.int 1234)
    ∧ "tcp_port" ∈ setIfNilKeysOf (v2CommonOps tcC2)
    ∧ "tcp_port" ∈ setIfNilKeysOf (legacyCommonDefaultOps tcC2)
    ∧ Doc.get (commonDoc (getTiFlashConfigV2 tcC2)) "tcp_port" = none
    ∧ Doc.get (commonDoc (getTiFlashConfig tcC2)) "tcp_port" = none := by
  refine ⟨rfl, by decide, by decide, ?_, ?_⟩ <;> rfl

/-- Input exercising the amended statement at a preserved default key. -/
def tcC2w : TidbCluster :=
  ⟨"a", "b", "", "v5.4.0", false, true, 0, none, false, false, false, "i", "p",
    some ⟨some [("tmp_path", .str "/x")], none⟩⟩

theorem c2_user_values_not_overwritten_witness :
    (Doc.get (commonDoc (getTiFlashConfigV2 tcC2w)) "tmp_path" = some (.str "/x")
      ∨ (tcC2w.tlsClusterEnabled = true
          ∧ ("tmp_path" = "http_port" ∨ "tmp_path" = "tcp_port")
          ∧ Doc.get (commonDoc (getTiFlashConfigV2 tcC2w)) "tmp_path" = none))
    ∧ (Doc.get (commonDoc (getTiFlashConfig tcC2w)) "tmp_path" = some (.str "/x")
      ∨ (((tcC2w.tlsClusterEnabled = true
            ∧ ("tmp_path" = "http_port" ∨ "tmp_path" = "tcp_port"))
          ∨ (tcC2w.tlsClusterEnabled = false
              ∧ ("tmp_path" = "https_port" ∨ "tmp_path" = "tcp_port_secure")))
          ∧ Doc.get (commonDoc (getTiFlashConfig tcC2w)) "tmp_path" = none)) :=
  ⟨(c2_user_values_not_overwritten tcC2w "tmp_path" (.str "/x")).1
      rfl (by decide),
   (c2_user_values_not_overwritten tcC2w "tmp_path" (.str "/x")).2.1
      rfl (by decide)⟩

/-- C7: the deletion of the secure port keys when TLS is disabled is done
only by the legacy dialect.  With TLS disabled, the current-dialect cascade
contains no deletion at all, so any `tcp_port_secure` or `https_port` from
the caller's partial input survives unchanged alongside the plaintext
ports, while the legacy output drops both secure port keys. -/
theorem c7_no_secure_cleanup_v2 (tc : TidbCluster)
    (h : tc.tlsClusterEnabled = false) :
    delKeysOf (v2CommonOps tc) = []
    ∧ Doc.get (commonDoc (getTiFlashConfigV2 tc)) "tcp_port_secure"
        = Doc.get tc.common0 "tcp_port_secure"
    ∧ Doc.get (commonDoc (getTiFlashConfigV2 tc)) "https_port"
        = Doc.get tc.common0 "https_port"
    ∧ (Doc.get (commonDoc (getTiFlashConfigV2 tc)) "tcp_port").isSome
    ∧ (Doc.get (commonDoc (getTiFlashConfigV2 tc)) "http_port").isSome
    ∧ Doc.get (commonDoc (getTiFlashConfig tc)) "tcp_port_secure" = none
    ∧ Doc.get (commonDoc (getTiFlashConfig tc)) "https_port" = none := by
  have hdels : delKeysOf (v2CommonOps tc) = [] := by
    rw [delKeysOf_v2Common, h, if_neg (by simp)]
  have hframe : ∀ (k : String), k ∉ writeKeysOf (v2BaseOps tc) →
      k ∉ writeKeysOf v2IPv6Ops →
      Doc.get (commonDoc (getTiFlashConfigV2 tc)) k = Doc.get tc.common0 k := by
    intro k hkb hk6
    rw [commonDoc_v2]
    refine get_applyOps_of_not_writes _ ?_
    intro op hop
    rw [v2CommonOps] at hop
    rcases List.mem_append.mp hop with hop | hop
    · rcases List.mem_append.mp hop with hop | hop
      · exact not_writes_of_writeKeysOf hkb op hop
      · exact not_writes_of_writeKeysOf hk6 op (mem_iteNil hop)
    · rw [h] at hop
      simp at hop
  have hmemtcp : "tcp_port" ∈ setIfNilKeysOf (v2CommonOps tc) :=
    @mem_setIfNilKeysOf "tcp_port" (.int 9000) (v2CommonOps tc)
      (by rw [v2CommonOps]
          exact List.mem_append_left _ (List.mem_append_left _ (by simp [v2BaseOps])))
  have hmemhttp : "http_port" ∈ setIfNilKeysOf (v2CommonOps tc) :=
    @mem_setIfNilKeysOf "http_port" (.int 8123) (v2CommonOps tc)
      (by rw [v2CommonOps]
          exact List.mem_append_left _ (List.mem_append_left _ (by simp [v2BaseOps])))
  refine ⟨hdels, ?_, ?_, ?_, ?_, ?_, ?_⟩
  · exact hframe "tcp_port_secure" (by rw [writeKeysOf_v2Base]; decide)
      (by rw [writeKeysOf_v2IPv6]; decide)
  · exact hframe "https_port" (by rw [writeKeysOf_v2Base]; decide)
      (by rw [writeKeysOf_v2IPv6]; decide)
  · rw [commonDoc_v2]
    exact isSome_of_setIfNil_mem hmemtcp (by rw [hdels]; exact List.not_mem_nil _)
  · rw [commonDoc_v2]
    exact isSome_of_setIfNil_mem hmemhttp (by rw [hdels]; exact List.not_mem_nil _)
  · rw [commonDoc_legacy_noTls tc h, get_del_del_outer]
  · rw [commonDoc_legacy_noTls tc h, get_del_del_inner _ _ _ (by decide)]

/-- Concrete input for `c7_no_secure_cleanup_v2`: TLS disabled, the caller
pre-set both secure port keys. -/
def tcC7 : TidbCluster :=
  ⟨"a", "b", "", "v5.4.0", false, false, 0, none, false, false, false, "i", "p",
    some ⟨some [("tcp_port_secure", .int 7), ("https_port", .int 8)], none⟩⟩

theorem c7_no_secure_cleanup_v2_witness :
    delKeysOf (v2CommonOps tcC7) = []
    ∧ Doc.get (commonDoc (getTiFlashConfigV2 tcC7)) "tcp_port_secure"
        = Doc.get tcC7.common0 "tcp_port_secure"
    ∧ Doc.get (commonDoc (getTiFlashConfigV2 tcC7)) "https_port"
        = Doc.get tcC7.common0 "https_port"
    ∧ (Doc.get (commonDoc (getTiFlashConfigV2 tcC7)) "tcp_port").isSome
    ∧ (Doc.get (commonDoc (getTiFlashConfigV2 tcC7)) "http_port").isSome
    ∧ Doc.get (commonDoc (getTiFlashConfig tcC7)) "tcp_port_secure" = none
    ∧ Doc.get (commonDoc (getTiFlashConfig tcC7)) "https_port" = none :=
  c7_no_secure_cleanup_v2 tcC7 rfl

/-- C9: synthesis is total — an absent config document is handled exactly
like a freshly default-constructed one, by both `GetTiFlashConfig` and the
sidecar builder — and `buildTiFlashSidecarContainers` succeeds if and only
if every one of the three log-path keys that the caller's engine document
defines holds a string; a non-string value at one of those keys (the
string-read type mismatch) is the subsystem's only error. -/
theorem c9_totality_and_single_error_mode (tc : TidbCluster) :
    GetTiFlashConfig (tc.withConfig none)
        = GetTiFlashConfig (tc.withConfig (some NewTiFlashConfig))
    ∧ buildTiFlashSidecarContainers (tc.withConfig none)
        = buildTiFlashSidecarContainers (tc.withConfig (some NewTiFlashConfig))
    ∧ ((∃ cs, buildTiFlashSidecarContainers tc = .ok cs)
        ↔ ∀ k ∈ (["logger.log", "logger.errorlog",
                   "flash.flash_cluster.log"] : List String),
            ∀ v, Doc.get tc.common0 k = some v → ∃ s, v = .str s) := by
  have hnoover : ∀ (k : String), ∀ op ∈ logDefaultOps, k ∉ op.overwriteKeys :=
    fun k => not_over_of_overwriteKeysOf
      (by rw [overwriteKeysOf_logDefault]; exact List.not_mem_nil _)
  have hnoguard : ∀ p ∈ guardPairsOf logDefaultOps, ∀ (k : String), ¬ p.2 = k :=
    fun p hp => (List.not_mem_nil p (by rwa [guardPairsOf_logDefault] at hp)).elim
  refine ⟨rfl, rfl, ?_, ?_⟩
  · rintro ⟨cs, hcs⟩ k hk v hv
    by_cases hvstr : ∃ s, v = .str s
    · exact hvstr
    · exfalso
      have hbad : v.asString = .error () := by
        cases v with
        | str s => exact (hvstr ⟨s, rfl⟩).elim
        | _ => rfl
      have hcom : Doc.get (applyOps logDefaultOps tc.common0) k = some v :=
        get_applyOps_of_some hv (hnoover k)
      have hga : getAsString (applyOps logDefaultOps tc.common0) k = .error () := by
        simp [getAsString, hcom, hbad]
      rw [build_common_eq] at hcs
      simp only [List.mem_cons, List.not_mem_nil, or_false] at hk
      rcases hk with rfl | rfl | rfl
      · rw [hga] at hcs
        simp at hcs
      · cases h1 : getAsString (applyOps logDefaultOps tc.common0) "logger.log" with
        | error e =>
          rw [h1] at hcs
          simp at hcs
        | ok p1 =>
          rw [h1, hga] at hcs
          simp at hcs
      · cases h1 : getAsString (applyOps logDefaultOps tc.common0) "logger.log" with
        | error e =>
          rw [h1] at hcs
          simp at hcs
        | ok p1 =>
          cases h2 : getAsString (applyOps logDefaultOps tc.common0)
              "logger.errorlog" with
          | error e =>
            rw [h1, h2] at hcs
            simp at hcs
          | ok p2 =>
            rw [h1, h2, hga] at hcs
            simp at hcs
  · intro hall
    have hget : ∀ (k : String) (dflt : String),
        k ∈ (["logger.log", "logger.errorlog",
          "flash.flash_cluster.log"] : List String) →
        setIfNilValuesOf logDefaultOps k = [.str dflt] →
        ∃ s, Doc.get (applyOps logDefaultOps tc.common0) k = some (.str s) := by
      intro k dflt hk hvals
      cases hd : Doc.get tc.common0 k with
      | none =>
        exact ⟨dflt, get_applyOps_default hvals (hnoover k)
          (fun p hp => hnoguard p hp k) hd⟩
      | some v =>
        obtain ⟨s, rfl⟩ := hall k hk v hd
        exact ⟨s, get_applyOps_of_some hd (hnoover k)⟩
    obtain ⟨s1, h1⟩ := hget "logger.log" defaultServerLog (by simp)
      sifVals_logDefault_server
    obtain ⟨s2, h2⟩ := hget "logger.errorlog" defaultErrorLog (by simp)
      sifVals_logDefault_error
    obtain ⟨s3, h3⟩ := hget "flash.flash_cluster.log" defaultClusterLog (by simp)
      sifVals_logDefault_cluster
    have hga1 : getAsString (applyOps logDefaultOps tc.common0) "logger.log"
        = .ok s1 := by
      simp [getAsString, h1, Value.asString]
    have hga2 : getAsString (applyOps logDefaultOps tc.common0) "logger.errorlog"
        = .ok s2 := by
      simp [getAsString, h2, Value.asString]
    have hga3 : getAsString (applyOps logDefaultOps tc.common0)
        "flash.flash_cluster.log" = .ok s3 := by
      simp [getAsString, h3, Value.asString]
    rw [build_common_eq, hga1, hga2, hga3]
    exact ⟨_, rfl⟩

/-- Concrete input for `c9_totality_and_single_error_mode`: one log key set
to a string by the caller, the other two left to their defaults. -/
def tcC9 : TidbCluster :=
  ⟨"a", "b", "", "v5.4.0", false, false, 0, none, false, false, false, "i", "p",
    some ⟨some [("logger.log", .str "/a/b/c.log")], none⟩⟩

theorem c9_totality_and_single_error_mode_witness :
    ∃ cs, buildTiFlashSidecarContainers tcC9 = .ok cs :=
  (c9_totality_and_single_error_mode tcC9).2.2.mpr (by
    intro k hk v hv
    simp only [List.mem_cons, List.not_mem_nil, or_false] at hk
    rcases hk with rfl | rfl | rfl
    · exact ⟨"/a/b/c.log", (Option.some.inj hv).symm⟩
    · exact Option.noConfusion hv
    · exact Option.noConfusion hv)

end TiFlash
